import Mathlib

/-!
# rds_exporter: session pool, enhanced collector and Performance Insights materializer

A shallow embedding of `sessions/sessions.go`, `discovery/discovery.go`,
`enhanced/collector.go` and `performance_insights/metrics.go`, followed by the
properties proved about it.

Conventions of the embedding.

* A Go `map[string]V` is an association list with pairwise distinct keys
  (`GoMap V`); the order of its entries is the order in which a `range`
  statement visits them, so quantifying over all maps quantifies over all
  iteration orders.
* `time.Duration` is an integer number of nanoseconds.
* A `*session.Session` is a record carrying the number of the allocation that
  created it, so that equality of records is equality of pointers.
* Calls that leave the process (the AWS SDK, the instance-description API) are
  answered by an explicit environment `Env`.
* Loggers are not part of the embedding, and every function is the sequential
  effect of one call; the lock discipline of the collector's methods is given
  separately, as sequences of atomic actions run under an interleaving.
-/

set_option linter.dupNamespace false

namespace RdsExporter

/-- Go `map[string]V`: an association list whose keys are pairwise distinct. -/
abbrev GoMap (V : Type) := AList (fun _ : String => V)

/-- Go `time.Duration`: nanoseconds. -/
abbrev Duration := Int

namespace time

/-- Go `time.Second`. -/
def Second : Duration := 1000000000

end time

/-- How a call can end without a result: a returned `error` or a `panic`. -/
inductive Failure where
  | error (msg : String)
  | panic (msg : String)
  deriving DecidableEq, Repr

/-! ## `prometheus` values, as far as the collectors build them -/

namespace prometheus

/-- A Go `float64`, given by its IEEE 754 bit pattern. The embedded code only
moves such values around. -/
structure Float64 where
  bits : Nat
  deriving DecidableEq, Repr

/-- The two name tests that `prometheus.NewDesc` applies (`IsValidMetricName`
on the metric name, `checkLabelName` on every label name). Their rules depend
on the version and the validation scheme of the client library, so they are
taken as parameters. -/
structure Checks where
  validMetricName : String → Bool
  validLabelName : String → Bool

/-- A `*prometheus.Desc`: the arguments of `NewDesc` and the error that
`NewDesc` records in the descriptor instead of returning it. -/
structure Desc where
  fqName : String
  help : String
  variableLabels : List String
  constLabels : GoMap String
  err : Option String

/-- A constant gauge as `prometheus.MustNewConstMetric` returns it. -/
structure Metric where
  desc : Desc
  value : Float64
  labelValues : List String

/-- Library call `prometheus.NewDesc(fqName, help, variableLabels, constLabels)`.
The descriptor records an error, in this order, when the metric name is not
valid, when a constant label name is not valid, when a variable label name is
not valid, and when a label name occurs twice among the constant and variable
labels. The messages are shortened. Label values are valid UTF-8 by the type
of strings here, so that test of the library never fails; versions of the
library that also reject an empty help text are not distinguished, the help
text of `makeMetric` is never empty. -/
def NewDesc (checks : Checks) (fqName help : String) (variableLabels : List String)
    (constLabels : GoMap String) : Desc :=
  { fqName := fqName
    help := help
    variableLabels := variableLabels
    constLabels := constLabels
    err :=
      if checks.validMetricName fqName = false then some "is not a valid metric name"
      else if constLabels.keys.all checks.validLabelName = false then
        some "is not a valid label name"
      else if variableLabels.all checks.validLabelName = false then
        some "is not a valid label name"
      else if (constLabels.keys ++ variableLabels).Nodup then none
      else some "duplicate label names in constant and variable labels" }

/-- Library call `prometheus.MustNewConstMetric(desc, GaugeValue, value,
labelValues...)`: panics with the error recorded in the descriptor, or when the
number of label values is not the number of variable labels. -/
def MustNewConstMetric (desc : Desc) (value : Float64) (labelValues : List String) :
    Except Failure Metric :=
  match desc.err with
  | some err => .error (.panic err)
  | none =>
    if labelValues.length = desc.variableLabels.length then
      .ok { desc := desc, value := value, labelValues := labelValues }
    else .error (.panic "inconsistent label cardinality")

end prometheus

/-! ## `sessions` -/

namespace config

/-- Modelled from the spec: the `config` package is not among the sources; the
fields are the ones `sessions.go` reads from a configured instance (region,
instance name or empty for discovery, the authentication settings of §4.1, the
label set and the per-feature disable flags of §3). -/
structure Instance where
  Region : String
  Instance : String
  AWSAccessKey : String
  AWSSecretKey : String
  AWSRoleArn : String
  IRSAEnabled : Bool
  DisableBasicMetrics : Bool
  DisableEnhancedMetrics : Bool
  DisablePerformanceInsights : Bool
  Labels : GoMap String

end config

namespace aws

/-- The credential handles `sessions.go` asks the AWS SDK for.
`chain v` is what `session.NewSession` puts into a session whose configuration
names no credentials: the SDK default provider chain, `v` telling whether
`CredentialsChainVerboseErrors` was set. `static` is
`credentials.NewStaticCredentials` or a `credentials.StaticProvider`.
`assumeRole base region arn` is `stscreds.NewCredentials(s, arn)` for a session
`s` with credentials `base` and region `region`. -/
inductive Credentials where
  | chain (verboseErrors : Bool)
  | static (AccessKeyID SecretAccessKey SessionToken : String)
  | assumeRole (base : Credentials) (region : String) (roleArn : String)
  deriving DecidableEq, Repr

/-- The fields of `aws.Config` that `sessions.go` sets. `Trace` stands for the
logger, log level and verbose-errors settings of the `if trace` block. -/
structure Config where
  Credentials : Option Credentials
  Region : String
  CredentialsChainVerboseErrors : Bool
  Trace : Bool
  deriving DecidableEq, Repr

end aws

namespace session

/-- A `*session.Session`: `ptr` numbers the allocation, `Credentials` and
`Region` are those of the session's resolved configuration. -/
structure Session where
  ptr : Nat
  Credentials : aws.Credentials
  Region : String
  deriving DecidableEq, Repr

end session

namespace rds

/-- One record of `DescribeDBInstancesOutput.DBInstances`; the SDK returns
every field through a pointer, `none` being `nil`. -/
structure DBInstance where
  DBInstanceIdentifier : Option String
  DbiResourceId : Option String
  MonitoringInterval : Option Int
  deriving DecidableEq, Repr

/-- The answers of the instance-description API to one run of paged calls:
`failed` is a call that returns an error, `last` an output whose `Marker` is
`nil`, `more page rest` an output with a non-nil `Marker`, `rest` being the
answers to the calls that follow. -/
inductive Pages where
  | failed (err : String)
  | last (page : List DBInstance)
  | more (page : List DBInstance) (rest : Pages)
  deriving Repr

end rds

/-- Everything outside the process that `sessions.New` consults. A run of
paged description calls is finite: a provider that hands out markers for ever
is not represented. -/
structure Env where
  /-- Whether `os.LookupEnv("CI")` finds the variable. -/
  CI : Bool
  /-- The error of `session.NewSession` for a configuration, if it fails; the
  answer depends on the configuration only. -/
  newSessionErr : aws.Config → Option String
  /-- The paged answers seen by `discovery.New` on a session. -/
  discoverPages : session.Session → rds.Pages
  /-- The paged answers seen by the resource-ID loop of `New` on a session. -/
  describePages : session.Session → rds.Pages

namespace session

/-- Call `session.NewSession(cfg)` as allocation number `ptr`: fails with the
environment's error, otherwise keeps the credentials of `cfg` or, when `cfg`
names none, resolves the default chain. -/
def NewSession (env : Env) (ptr : Nat) (cfg : aws.Config) : Except String Session :=
  match env.newSessionErr cfg with
  | some err => .error err
  | none =>
    .ok { ptr := ptr
          Credentials := match cfg.Credentials with
            | some c => c
            | none => aws.Credentials.chain cfg.CredentialsChainVerboseErrors
          Region := cfg.Region }

end session

namespace sessions

/-- The runtime record `sessions.Instance`. -/
structure Instance where
  Region : String
  Instance : String
  DisableBasicMetrics : Bool
  DisableEnhancedMetrics : Bool
  DisablePerformanceInsights : Bool
  ResourceID : String
  Labels : GoMap String
  EnhancedMonitoringInterval : Duration

/-- Go `map[*session.Session][]Instance`. -/
abbrev SessionMap := AList (fun _ : session.Session => List Instance)

/-- The pool `sessions.Sessions`. -/
structure Sessions where
  sessions : SessionMap

/-- The accessor `Sessions.AllSessions`. -/
def Sessions.AllSessions (s : Sessions) : SessionMap := s.sessions

end sessions

namespace discovery

/-- The page callback of `getRDSInstanceIdentifiers` run over all pages: every
non-nil `DBInstanceIdentifier` is appended; an error of the paging call is the
result. -/
def getRDSInstanceIdentifiers.pages : rds.Pages → List String → Except String (List String)
  | .failed err, _ => .error err
  | .last page, identifiers => .ok (identifiers ++ page.filterMap fun i => i.DBInstanceIdentifier)
  | .more page rest, identifiers =>
    getRDSInstanceIdentifiers.pages rest
      (identifiers ++ page.filterMap fun i => i.DBInstanceIdentifier)

/-- Function `getRDSInstanceIdentifiers`. -/
def getRDSInstanceIdentifiers (env : Env) (sess : session.Session) : Except String (List String) :=
  getRDSInstanceIdentifiers.pages (env.discoverPages sess) []

/-- Function `discovery.New`. -/
def New (env : Env) (sess : session.Session) : Except String (List String) :=
  getRDSInstanceIdentifiers env sess

end discovery

namespace sessions

/-- Function `buildCredentials`. The sessions built here are temporary, their
allocation number is immaterial. -/
def buildCredentials (env : Env) (inst : config.Instance) : Except String aws.Credentials :=
  if inst.IRSAEnabled = true then
    match session.NewSession env 0
        { Credentials := none, Region := inst.Region,
          CredentialsChainVerboseErrors := false, Trace := false } with
    | .error err => .error err
    | .ok stsSession => .ok stsSession.Credentials
  else if inst.AWSRoleArn ≠ "" then
    match session.NewSession env 0
        { Credentials := some (aws.Credentials.static inst.AWSAccessKey inst.AWSSecretKey ""),
          Region := inst.Region, CredentialsChainVerboseErrors := false, Trace := false } with
    | .error err => .error err
    | .ok stsSession =>
      .ok (aws.Credentials.assumeRole stsSession.Credentials stsSession.Region inst.AWSRoleArn)
  else if inst.AWSAccessKey ≠ "" ∨ inst.AWSSecretKey ≠ "" then
    .ok (aws.Credentials.static inst.AWSAccessKey inst.AWSSecretKey "")
  else
    match session.NewSession env 0
        { Credentials := none, Region := inst.Region,
          CredentialsChainVerboseErrors := true, Trace := false } with
    | .error err => .error err
    | .ok stsSession => .ok stsSession.Credentials

/-- Go conversion of an integer to `int64` (two's complement wrap-around). -/
def wrapInt64 (x : Int) : Int := (x + 2 ^ 63) % 2 ^ 64 - 2 ^ 63

/-- The `Instance` literal that `New` appends for a configured instance under
the name `identifier`; `ResourceID` and the interval start at their zero
values. -/
def New.record (inst : config.Instance) (identifier : String) : Instance :=
  { Region := inst.Region
    Instance := identifier
    Labels := inst.Labels
    DisableBasicMetrics := inst.DisableBasicMetrics
    DisableEnhancedMetrics := inst.DisableEnhancedMetrics
    DisablePerformanceInsights := inst.DisablePerformanceInsights
    ResourceID := ""
    EnhancedMonitoringInterval := 0 }

/-- The statement `res.sessions[s] = append(res.sessions[s], x)`. -/
def New.append (m : SessionMap) (s : session.Session) (x : Instance) : SessionMap :=
  m.insert s ((m.lookup s).getD [] ++ [x])

/-- The variables of the first loop of `New`: the map `sharedSessions`, the
map `res.sessions`, and the number of sessions created so far, which is the
allocation number of the next one. -/
structure New.State where
  sharedSessions : GoMap session.Session
  sessions : SessionMap
  allocated : Nat

/-- One iteration of the first loop of `New` (lines 57 to 127). -/
def New.addInstance (env : Env) (trace : Bool) (st : New.State) (inst : config.Instance) :
    Except Failure New.State :=
  match st.sharedSessions.lookup (inst.Region ++ "/" ++ inst.AWSAccessKey) with
  | some s =>
    .ok { st with sessions := New.append st.sessions s (New.record inst inst.Instance) }
  | none =>
    match buildCredentials env inst with
    | .error err => .error (.error err)
    | .ok creds =>
      if trace = true ∧ env.CI = true then
        .error (.panic "Do not enable AWS request tracing on CI - output will contain credentials.")
      else
        match session.NewSession env st.allocated
            { Credentials := some creds, Region := inst.Region,
              CredentialsChainVerboseErrors := trace, Trace := trace } with
        | .error err => .error (.error err)
        | .ok s =>
          let discoveredInstances : List String :=
            if inst.Instance = "" then
              match discovery.New env s with
              | .ok identifiers => identifiers
              | .error _ => []
            else [inst.Instance]
          .ok { sharedSessions := st.sharedSessions.insert (inst.Region ++ "/" ++ inst.AWSAccessKey) s
                sessions := discoveredInstances.foldl
                  (fun m identifier => New.append m s (New.record inst identifier)) st.sessions
                allocated := st.allocated + 1 }

/-- The first loop of `New` over all configured instances. -/
def New.shareSessions (env : Env) (trace : Bool) (instances : List config.Instance) :
    Except Failure New.State :=
  instances.foldlM (New.addInstance env trace)
    { sharedSessions := ∅, sessions := ∅, allocated := 0 }

/-- The loop `for i, instance := range instances` for one `dbInstance`
(lines 143 to 148); dereferencing a nil field panics. -/
def New.matchDBInstance (dbInstance : rds.DBInstance) : List Instance → Except Failure (List Instance)
  | [] => .ok []
  | inst :: rest =>
    match dbInstance.DBInstanceIdentifier with
    | none => .error (.panic "nil pointer dereference")
    | some identifier =>
      if identifier = inst.Instance then
        match dbInstance.DbiResourceId, dbInstance.MonitoringInterval with
        | some resourceID, some monitoringInterval =>
          match New.matchDBInstance dbInstance rest with
          | .error f => .error f
          | .ok rest' =>
            .ok ({ inst with
                   ResourceID := resourceID
                   EnhancedMonitoringInterval :=
                     wrapInt64 (wrapInt64 monitoringInterval * time.Second) } :: rest')
        | _, _ => .error (.panic "nil pointer dereference")
      else
        match New.matchDBInstance dbInstance rest with
        | .error f => .error f
        | .ok rest' => .ok (inst :: rest')

/-- The loop over `output.DBInstances` of one page. -/
def New.matchPage (page : List rds.DBInstance) (instances : List Instance) :
    Except Failure (List Instance) :=
  page.foldlM (fun insts dbInstance => New.matchDBInstance dbInstance insts) instances

/-- The paging loop of one session (lines 133 to 153): an error ends it with
what was resolved so far, a nil marker ends it after the page. -/
def New.resolve : rds.Pages → List Instance → Except Failure (List Instance)
  | .failed _, instances => .ok instances
  | .last page, instances => New.matchPage page instances
  | .more page rest, instances =>
    match New.matchPage page instances with
    | .error f => .error f
    | .ok instances' => New.resolve rest instances'

/-- The loop "add resource ID to all instances" (lines 130 to 154). -/
def New.addResourceIDs (env : Env) (sessions : SessionMap) : Except Failure SessionMap :=
  sessions.entries.foldlM
    (fun m e =>
      match New.resolve (env.describePages e.1) e.2 with
      | .error f => .error f
      | .ok instances => .ok (m.insert e.1 instances))
    sessions

/-- The loop "remove instances without resource ID" (lines 157 to 167). -/
def New.removeUnresolved (sessions : SessionMap) : SessionMap :=
  sessions.foldl
    (fun m s instances => m.insert s (instances.filter fun i => decide (i.ResourceID ≠ "")))
    sessions

/-- The loop "remove sessions without instances" (lines 170 to 174). -/
def New.removeEmpty (sharedSessions : GoMap session.Session) (sessions : SessionMap) : SessionMap :=
  sharedSessions.foldl
    (fun m _ s => if ((m.lookup s).getD []).length = 0 then m.erase s else m)
    sessions

/-- Function `sessions.New`. -/
def New (env : Env) (instances : List config.Instance) (trace : Bool) : Except Failure Sessions :=
  match New.shareSessions env trace instances with
  | .error f => .error f
  | .ok st =>
    match New.addResourceIDs env st.sessions with
    | .error f => .error f
    | .ok resolved =>
      .ok { sessions := New.removeEmpty st.sharedSessions (New.removeUnresolved resolved) }

end sessions

/-! ## `enhanced` -/

namespace enhanced

/-- Constant `maxInterval = 60 * time.Second`. -/
def maxInterval : Duration := 60 * time.Second

/-- Constant `minInterval = 2 * time.Second`. -/
def minInterval : Duration := 2 * time.Second

/-- The struct `enhanced.Collector`, without its lock, logger and cancel function. -/
structure Collector where
  sessions : sessions.Sessions
  metrics : GoMap (List prometheus.Metric)

/-- Function `getEnabledInstances`: the loop appends every instance whose
`DisableEnhancedMetrics` is false. -/
def getEnabledInstances (instances : List sessions.Instance) : List sessions.Instance :=
  instances.foldl
    (fun enabledInstances inst =>
      if inst.DisableEnhancedMetrics then enabledInstances else enabledInstances ++ [inst])
    []

/-- Lines 47 to 55 of `NewCollector`: the interval of one session group,
computed from its enabled instances. -/
def scrapeInterval (enabledInstances : List sessions.Instance) : Duration :=
  let interval := enabledInstances.foldl
    (fun interval inst =>
      if 0 < inst.EnhancedMonitoringInterval ∧ inst.EnhancedMonitoringInterval < interval then
        inst.EnhancedMonitoringInterval
      else interval)
    maxInterval
  if interval < minInterval then minInterval else interval

/-- Method `Collector.setMetrics`: every entry of `m` overwrites the cache entry of
its key. -/
def Collector.setMetrics (c : Collector) (m : GoMap (List prometheus.Metric)) : Collector :=
  { c with metrics := m.foldl (fun cache id metrics => cache.insert id metrics) c.metrics }

/-- What `NewCollector` starts for one session group: the scraper's session
and instances, and the interval handed to `s.start`. -/
structure Scraper where
  session : session.Session
  instances : List sessions.Instance
  interval : Duration

/-- Function `NewCollector`, sequentially: for every session group the enabled
instances, the interval, and the first scrape stored with `setMetrics`; the
periodic goroutines are returned as the list of what was started. `scrape`
stands for `scraper.scrape`, whose source is not part of the embedding. -/
def NewCollector
    (scrape : session.Session → List sessions.Instance → GoMap (List prometheus.Metric))
    (sessions : sessions.Sessions) : Collector × List Scraper :=
  sessions.AllSessions.foldl
    (fun acc sess instances =>
      let enabledInstances := getEnabledInstances instances
      let interval := scrapeInterval enabledInstances
      (acc.1.setMetrics (scrape sess enabledInstances),
        acc.2 ++ [{ session := sess, instances := enabledInstances, interval := interval }]))
    ({ sessions := sessions, metrics := ∅ }, [])

end enhanced

/-! ## `enhanced`: the lock discipline of `Update`, `setMetrics` and `Collect`

The functions above give the sequential effect of one call. For the calls that
run concurrently on one collector, each method is also given as the sequence of
its atomic actions on the collector's fields and on its lock `rw`, run under
an interleaving of two goroutines. -/

namespace enhanced

/-- Which collector a reference held by the collector `c` comes from: the one
it held before `Update`, or the one of `newCollector`. -/
inductive Ref where
  | old
  | fresh
  deriving DecidableEq, Repr

/-- The collector `c` as concurrent callers find it: its four references and
the state of `c.rw` (`writer`: held exclusively, `readers`: number of shared
holders). -/
structure Owner where
  metrics : Ref
  cancelFunc : Ref
  logger : Ref
  sessions : Ref
  writer : Bool
  readers : Nat
  deriving DecidableEq, Repr

/-- The atomic actions of the three methods. `cancel` is the call
`c.cancelFunc()`, `build` the call of `NewCollector`, `storeCancelFunc` to
`storeMetrics` the four assignments of `Update`, `storeEntries` the loop of
`setMetrics`, `readMetrics` the loop of `Collect`. -/
inductive Action where
  | Lock
  | Unlock
  | RLock
  | RUnlock
  | cancel
  | build
  | storeCancelFunc
  | storeLogger
  | storeSessions
  | storeMetrics
  | storeEntries
  | readMetrics
  deriving DecidableEq, Repr

/-- Method `Update` (lines 109 to 118), statement by statement. -/
def Update.steps : List Action :=
  [Action.cancel, Action.build, Action.storeCancelFunc, Action.storeLogger,
    Action.storeSessions, Action.storeMetrics]

/-- Method `setMetrics` (lines 101 to 107), statement by statement. -/
def setMetrics.steps : List Action := [Action.Lock, Action.storeEntries, Action.Unlock]

/-- Method `Collect` (lines 126 to 135), statement by statement; the deferred
`RUnlock` runs last. -/
def Collect.steps : List Action := [Action.RLock, Action.readMetrics, Action.RUnlock]

/-- One atomic action on the collector; `none` when the action has to wait
(`Lock` while the lock is held in any way, `RLock` while it is held
exclusively). -/
def Owner.step (o : Owner) : Action → Option Owner
  | .Lock => if o.writer = false ∧ o.readers = 0 then some { o with writer := true } else none
  | .Unlock => some { o with writer := false }
  | .RLock => if o.writer = false then some { o with readers := o.readers + 1 } else none
  | .RUnlock => some { o with readers := o.readers - 1 }
  | .storeCancelFunc => some { o with cancelFunc := Ref.fresh }
  | .storeLogger => some { o with logger := Ref.fresh }
  | .storeSessions => some { o with sessions := Ref.fresh }
  | .storeMetrics => some { o with metrics := Ref.fresh }
  | _ => some o

/-- Two goroutines run under a schedule: `true` lets the first one perform its
next action, `false` the second. The result lists the collector as it was at
every `readMetrics`; it is `none` when the schedule picks a goroutine that has
finished or has to wait, or ends before both have finished. -/
def interleave : List Bool → List Action → List Action → Owner → List Owner → Option (List Owner)
  | [], [], [], _, seen => some seen
  | [], _, _, _, _ => none
  | true :: _, [], _, _, _ => none
  | false :: _, _, [], _, _ => none
  | true :: schedule, a :: first, second, o, seen =>
    match o.step a with
    | none => none
    | some o' =>
      interleave schedule first second o' (if a = Action.readMetrics then seen ++ [o] else seen)
  | false :: schedule, first, a :: second, o, seen =>
    match o.step a with
    | none => none
    | some o' =>
      interleave schedule first second o' (if a = Action.readMetrics then seen ++ [o] else seen)

/-- The collector before `Update`: all four references old, lock free. -/
def Owner.initial : Owner :=
  { metrics := Ref.old, cancelFunc := Ref.old, logger := Ref.old, sessions := Ref.old,
    writer := false, readers := 0 }

/-- A collector in which only some of the four references have been replaced. -/
def Owner.halfUpdated (o : Owner) : Prop :=
  ¬ (o.metrics = o.cancelFunc ∧ o.cancelFunc = o.logger ∧ o.logger = o.sessions)

end enhanced

/-! ## `performance_insights` -/

namespace strings

/-- Scan of `strings.ReplaceAll` for a non-empty `old`: `skip` counts the
characters of a match just replaced that are still to be passed over. -/
def replaceFrom (old new : List Char) : Nat → List Char → List Char
  | _, [] => []
  | skip + 1, _ :: cs => replaceFrom old new skip cs
  | 0, c :: cs =>
    if old.isPrefixOf (c :: cs) = true then new ++ replaceFrom old new (old.length - 1) cs
    else c :: replaceFrom old new 0 cs

/-- Go `strings.ReplaceAll(s, old, new)` on strings taken as sequences of
characters: every non-overlapping occurrence of `old`, leftmost first, becomes
`new`; an empty `old` matches before every character and at the end. -/
def ReplaceAll (s old new : String) : String :=
  if old.data = [] then
    String.mk (new.data ++ (s.data.map fun c => c :: new.data).flatten)
  else
    String.mk (replaceFrom old.data new.data 0 s.data)

end strings

namespace reflect

/-- The cases of a `reflect.Value` that `makeGauge` tells apart by `Kind`. -/
inductive Value where
  | Float64 (f : prometheus.Float64)
  | Int (i : Int)
  | Ptr (elem : Option Value)
  | Other (kind : String)

end reflect

namespace performance_insights

/-- One `(timestamp, value)` point; the timestamp is kept as Unix time. -/
structure metricDataPoint where
  Timestamp : Int
  Value : prometheus.Float64

/-- Metric name and dimensions of an entry. -/
structure metricKey where
  Metric : String
  Dimensions : GoMap String

/-- One entry of `MetricList`. -/
structure metric where
  Key : metricKey
  DataPoints : List metricDataPoint

/-- The decoded payload. -/
structure performanceInsightsMetrics where
  AlignedStartTime : Int
  AlignedEndTime : Int
  Identifier : String
  MetricList : List metric

/-- The `switch` of `makeGauge` on the kind of a non-pointer value, followed
by `prometheus.MustNewConstMetric`. `float64OfInt` is Go's conversion
`float64(int64)`. -/
def makeGauge.ofKind (float64OfInt : Int → prometheus.Float64) (desc : prometheus.Desc)
    (labelValues : List String) : reflect.Value → Except Failure (Option prometheus.Metric)
  | .Float64 f =>
    match prometheus.MustNewConstMetric desc f labelValues with
    | .error e => .error e
    | .ok pm => .ok (some pm)
  | .Int i =>
    match prometheus.MustNewConstMetric desc (float64OfInt i) labelValues with
    | .error e => .error e
    | .ok pm => .ok (some pm)
  | _ => .error (.panic "can't make a metric value")

/-- Function `makeGauge`: a nil pointer gives the nil metric (`none`), a
pointer is dereferenced once, then the kind decides. -/
def makeGauge (float64OfInt : Int → prometheus.Float64) (desc : prometheus.Desc)
    (labelValues : List String) : reflect.Value → Except Failure (Option prometheus.Metric)
  | .Ptr none => .ok none
  | .Ptr (some value) => makeGauge.ofKind float64OfInt desc labelValues value
  | value => makeGauge.ofKind float64OfInt desc labelValues value

/-- Lines 80 to 87 of `makeMetric`: the variable label keys and values, one
pair per dimension in the order of the map. -/
def makeMetric.labels (m : metric) : List String × List String :=
  m.Key.Dimensions.foldl
    (fun (acc : List String × List String) k v =>
      (acc.1 ++ [strings.ReplaceAll k "." "_"], acc.2 ++ [v]))
    ([], [])

/-- Lines 75 to 91 of `makeMetric`: the descriptor of the entry. -/
def makeMetric.desc (checks : prometheus.Checks) (m : metric) (constLabels : GoMap String) :
    prometheus.Desc :=
  let piMetricName := strings.ReplaceAll m.Key.Metric "." "_"
  let metricName := "rds_pi_" ++ piMetricName
  let help := m.Key.Metric ++ " metric from RDS Performance Insights"
  prometheus.NewDesc checks metricName help (makeMetric.labels m).1 constLabels

/-- Function `makeMetric`. Reading `m.DataPoints[0]` of an empty slice is the
run-time panic of Go; it comes after `NewDesc`, which only records its error,
and before `MustNewConstMetric`. -/
def makeMetric (checks : prometheus.Checks) (float64OfInt : Int → prometheus.Float64)
    (m : metric) (constLabels : GoMap String) : Except Failure (Option prometheus.Metric) :=
  let desc := makeMetric.desc checks m constLabels
  match m.DataPoints with
  | [] => .error (.panic "index out of range [0] with length 0")
  | dataPoint :: _ =>
    makeGauge float64OfInt desc (makeMetric.labels m).2 (reflect.Value.Float64 dataPoint.Value)

/-- Lines 102 to 112 of `makePrometheusMetrics`: the constant labels. -/
def performanceInsightsMetrics.makePrometheusMetrics.constLabels
    (instanceIdentifier region : String) (labels : GoMap String) : GoMap String :=
  labels.foldl
    (fun (constLabels : GoMap String) n v =>
      if v = "" then constLabels.erase n else constLabels.insert n v)
    (((∅ : GoMap String).insert "region" region).insert "instance_identifier" instanceIdentifier)

/-- Method `makePrometheusMetrics`: the constant labels, then one call of
`makeMetric` per entry, appended in order. -/
def performanceInsightsMetrics.makePrometheusMetrics (checks : prometheus.Checks)
    (float64OfInt : Int → prometheus.Float64) (m : performanceInsightsMetrics)
    (instanceIdentifier region : String) (labels : GoMap String) :
    Except Failure (List (Option prometheus.Metric)) :=
  let constLabels :=
    performanceInsightsMetrics.makePrometheusMetrics.constLabels instanceIdentifier region labels
  m.MetricList.foldlM
    (fun res mt => do
      let met ← makeMetric checks float64OfInt mt constLabels
      pure (res ++ [met]))
    []

end performance_insights

/-! ## Specification-side definitions

These follow the wording of the specification and are compared with the
embedded code below. -/

namespace spec

/-- Clamping a duration to `[minInterval, maxInterval]`. -/
def clamp (d : Duration) : Duration := max enhanced.minInterval (min enhanced.maxInterval d)

/-- The enabled instances of a group, in the specification's words: those
whose enhanced-metrics feature is not disabled. -/
def enabled (instances : List sessions.Instance) : List sessions.Instance :=
  instances.filter fun i => !i.DisableEnhancedMetrics

/-- The claimed effective interval: the minimum of the monitoring intervals of
all enabled instances, clamped; `none` for a group without enabled instance. -/
def clampedMinimum (instances : List sessions.Instance) : Option Duration :=
  ((enabled instances).map fun i => i.EnhancedMonitoringInterval).min?.map clamp

/-- The effective interval with non-positive reports left out: the minimum of
the positive monitoring intervals of the enabled instances, clamped, and
`maxInterval` when no enabled instance reports a positive interval. -/
def clampedPositiveMinimum (instances : List sessions.Instance) : Duration :=
  match (((enabled instances).map fun i => i.EnhancedMonitoringInterval).filter
      fun d => decide (0 < d)).min? with
  | none => enhanced.maxInterval
  | some d => clamp d

/-- The constant label named `n` of a sample: an extra label of that name with
a non-empty value gives the value, an extra label of that name with the empty
value gives no label, and without such an extra label `region` and
`instance_identifier` carry the caller's region and instance ID. -/
def constLabel (instanceIdentifier region : String) (labels : GoMap String) (n : String) :
    Option String :=
  match labels.lookup n with
  | some v => if v = "" then none else some v
  | none =>
    if n = "instance_identifier" then some instanceIdentifier
    else if n = "region" then some region
    else none

/-- Replacing every `'.'` of a string by `'_'`, character by character. -/
def dotsToUnderscores (s : String) : String :=
  String.mk (s.data.map fun c => if c = '.' then '_' else c)

end spec

/-! ## Invariants of the loops -/

/-- Every group of the first loop is keyed by a session registered in
`sharedSessions`. -/
def GroupsRegistered (st : sessions.New.State) : Prop :=
  ∀ s, s ∈ st.sessions → ∃ k, st.sharedSessions.lookup k = some s

/-- The map key under which the first loop of `New` looks a configured
instance up. -/
def sessionKey (inst : config.Instance) : String := inst.Region ++ "/" ++ inst.AWSAccessKey

/-- Bookkeeping of the first loop: registered sessions were allocated earlier,
and no session is registered under two keys. -/
structure Registry (st : sessions.New.State) : Prop where
  allocated : ∀ k s, st.sharedSessions.lookup k = some s → s.ptr < st.allocated
  injective : ∀ k1 k2 s, st.sharedSessions.lookup k1 = some s →
    st.sharedSessions.lookup k2 = some s → k1 = k2

/-! ## Sample values used by the closed statements -/

namespace sample

/-- A gauge sample named `name` with value bits `bits`. -/
def gauge (name : String) (bits : Nat) : prometheus.Metric :=
  { desc := { fqName := name, help := "", variableLabels := [], constLabels := ∅, err := none }
    value := { bits := bits }
    labelValues := [] }

/-- A map with the single entry `k ↦ v`. -/
def single {V : Type} (k : String) (v : V) : GoMap V := (∅ : GoMap V).insert k v

/-- A runtime instance `name` with the given disable flag and interval. -/
def instance_ (name : String) (disabled : Bool) (interval : Duration) : sessions.Instance :=
  { Region := "us-east-1", Instance := name, DisableBasicMetrics := false,
    DisableEnhancedMetrics := disabled, DisablePerformanceInsights := false,
    ResourceID := "db-" ++ name, Labels := ∅, EnhancedMonitoringInterval := interval }

/-- The strictest name rules of the client library (legacy validation): a
metric name matches `[a-zA-Z_:][a-zA-Z0-9_:]*`, a label name matches
`[a-zA-Z_][a-zA-Z0-9_]*` and does not start with `__`. -/
def checks : prometheus.Checks :=
  { validMetricName := fun s =>
      match s.data with
      | [] => false
      | c :: cs =>
        (c.isAlpha || c == '_' || c == ':') &&
          cs.all fun d => d.isAlphanum || d == '_' || d == ':'
    validLabelName := fun s =>
      match s.data with
      | [] => false
      | c :: cs =>
        (c.isAlpha || c == '_') && (cs.all fun d => d.isAlphanum || d == '_') &&
          !(['_', '_'].isPrefixOf s.data) }

/-- Name rules that accept every name. -/
def permissive : prometheus.Checks :=
  { validMetricName := fun _ => true, validLabelName := fun _ => true }

/-- The conversion `float64(int64)` is never reached by the materializer; the
closed statements fix it to a constant. -/
def float64OfInt (_ : Int) : prometheus.Float64 := { bits := 0 }

/-- The bit pattern of the `float64` 4.0. -/
def four : prometheus.Float64 := { bits := 0x4010000000000000 }

/-- The bit pattern of the `float64` 7.0. -/
def seven : prometheus.Float64 := { bits := 0x401C000000000000 }

/-- The entry of the specification's example: key `db.SQL.Innodb_rows_read.avg`,
dimension `db.sql.tokenized_ids = abc`, points `(t1, 4.0)` and `(t0, 7.0)`
with `t1` after `t0`. -/
def entry : performance_insights.metric :=
  { Key := { Metric := "db.SQL.Innodb_rows_read.avg"
             Dimensions := single "db.sql.tokenized_ids" "abc" }
    DataPoints := [{ Timestamp := 1700000060, Value := four },
                   { Timestamp := 1700000000, Value := seven }] }

/-- Extra labels: one with a value, one with the empty value. -/
def extras : GoMap String := ((∅ : GoMap String).insert "team" "").insert "env" "prod"

/-- A payload holding `entry` alone. -/
def payload : performance_insights.performanceInsightsMetrics :=
  { AlignedStartTime := 1700000000, AlignedEndTime := 1700000060, Identifier := "db-ABC"
    MetricList := [entry] }

/-- A configured instance with no role and no IRSA. -/
def configured (region name accessKey : String) : config.Instance :=
  { Region := region, Instance := name, AWSAccessKey := accessKey, AWSSecretKey := "",
    AWSRoleArn := "", IRSAEnabled := false, DisableBasicMetrics := false,
    DisableEnhancedMetrics := false, DisablePerformanceInsights := false, Labels := ∅ }

/-- A configured instance given by its authentication settings. -/
def authenticated (irsa : Bool) (roleArn accessKey secretKey : String) : config.Instance :=
  { Region := "us-east-1", Instance := "db1", AWSAccessKey := accessKey,
    AWSSecretKey := secretKey, AWSRoleArn := roleArn, IRSAEnabled := irsa,
    DisableBasicMetrics := false, DisableEnhancedMetrics := false,
    DisablePerformanceInsights := false, Labels := ∅ }

/-- An environment in which every session is built, discovery finds nothing,
and the description API answers the sessions of the regions `us-east-1` and
`eu-west-1` in two pages: `db1` (interval 5s), then `db2` (interval 60s) and
`db3` with an empty resource ID; the description fails for a session of any
other region. -/
def env : Env :=
  { CI := false
    newSessionErr := fun _ => none
    discoverPages := fun _ => rds.Pages.last []
    describePages := fun s =>
      if s.Region = "us-east-1" ∨ s.Region = "eu-west-1" then
        rds.Pages.more
          [{ DBInstanceIdentifier := some "db1", DbiResourceId := some "db-R1",
             MonitoringInterval := some 5 }]
          (rds.Pages.last
            [{ DBInstanceIdentifier := some "db2", DbiResourceId := some "db-R2",
               MonitoringInterval := some 60 },
             { DBInstanceIdentifier := some "db3", DbiResourceId := some "",
               MonitoringInterval := some 0 }])
      else rds.Pages.failed "no such endpoint" }

/-- Two configured instances that differ in region and in access key, while
`Region + "/" + AWSAccessKey` is `us-east-1/x/K` for both. -/
def colliding : List config.Instance :=
  [configured "us-east-1" "db1" "x/K", configured "us-east-1/x" "db2" "K"]

/-- The session the first loop creates for the first entry of `colliding`. -/
def collidingSession : session.Session :=
  { ptr := 0, Credentials := aws.Credentials.static "x/K" "" "", Region := "us-east-1" }

/-- Three configured instances in two regions. -/
def threeInstances : List config.Instance :=
  [configured "us-east-1" "db1" "", configured "us-east-1" "db3" "",
    configured "eu-west-1" "nope" ""]

/-- Two configured instances in two regions. -/
def twoRegions : List config.Instance :=
  [configured "eu-west-1" "nope" "", configured "us-east-1" "db2" ""]

/-- A session with allocation number `n`. -/
def session_ (n : Nat) : session.Session :=
  { ptr := n, Credentials := aws.Credentials.chain true, Region := "us-east-1" }

/-- A pool of one group: an enabled instance reporting 1s and a disabled one
reporting 5s. -/
def pool : sessions.Sessions :=
  { sessions := (∅ : sessions.SessionMap).insert (session_ 0)
      [instance_ "a" false 1000000000, instance_ "b" true 5000000000] }

/-- The scraper expected for `pool`. -/
def scraper : enhanced.Scraper :=
  { session := session_ 0, instances := [instance_ "a" false 1000000000],
    interval := 2000000000 }

/-- A payload whose only entry has a data point and the dimension `region`. -/
def clashingPayload : performance_insights.performanceInsightsMetrics :=
  { AlignedStartTime := 1700000000, AlignedEndTime := 1700000060, Identifier := "db-ABC"
    MetricList :=
      [{ Key := { Metric := "db.load.avg", Dimensions := single "region" "x" }
         DataPoints := [{ Timestamp := 1700000060, Value := four }] }] }

/-- An entry without data points. -/
def emptyEntry : performance_insights.metric :=
  { Key := { Metric := "db.load.avg", Dimensions := ∅ }, DataPoints := [] }

/-- A payload whose second entry has no data points, between two well-formed
entries. -/
def mixedPayload : performance_insights.performanceInsightsMetrics :=
  { AlignedStartTime := 1700000000, AlignedEndTime := 1700000060, Identifier := "db-ABC"
    MetricList := [entry, emptyEntry, entry] }

/-- The environment `env` with the variable `CI` set. -/
def envCI : Env := { env with CI := true }

/-- An environment with `CI` set in which no SDK session can be built. -/
def envCIFailing : Env := { env with CI := true, newSessionErr := fun _ => some "no session" }

/-- A schedule that lets `Update` run up to and including its third
assignment, then `Collect` as a whole, then the last assignment of `Update`. -/
def schedule : List Bool := [true, true, true, true, true, false, false, false, true]

end sample

/-! ## Lemmas on maps -/

section MapLemmas

variable {α : Type} [DecidableEq α] {V W : Type}

/-- Folding insertions of the entries of a duplicate-free list, each value
passed through `f`: a key of the list ends with its transformed value, any
other key keeps what the accumulator had. -/
theorem lookup_foldl_insert (f : α → W → V) (es : List (Sigma fun _ : α => W))
    (hes : es.NodupKeys) (acc : AList (fun _ : α => V)) (k : α) :
    (es.foldl (fun m e => m.insert e.1 (f e.1 e.2)) acc).lookup k =
      (es.dlookup k).elim (acc.lookup k) (fun w => some (f k w)) := by
  induction es generalizing acc with
  | nil => simp
  | cons e es ih =>
    obtain ⟨hk, hes'⟩ := List.nodupKeys_cons.mp hes
    rw [List.foldl_cons, ih hes']
    by_cases h : k = e.1
    · subst h
      have hnone : es.dlookup e.1 = none := List.dlookup_eq_none.mpr hk
      obtain ⟨a, b⟩ := e
      simp [hnone, AList.lookup_insert, List.dlookup_cons_eq]
    · rw [List.dlookup_cons_ne es e h, AList.lookup_insert_ne h]

end MapLemmas

/-! ## C1: `setMetrics` is a per-key merge -/

theorem setMetrics_lookup (c : enhanced.Collector) (m : GoMap (List prometheus.Metric))
    (id : String) :
    (c.setMetrics m).metrics.lookup id = (m.lookup id).elim (c.metrics.lookup id) some := by
  have h := lookup_foldl_insert (fun _ (w : List prometheus.Metric) => w) m.entries m.nodupKeys
    c.metrics id
  exact h

theorem lookup_single {V : Type} (k id : String) (v : V) :
    (sample.single k v).lookup id = if id = k then some v else none := by
  unfold sample.single
  by_cases h : id = k
  · subst h; rw [AList.lookup_insert]; simp
  · rw [AList.lookup_insert_ne h, AList.lookup_empty]; simp [h]

/-- C1: after `setMetrics` the cache entry of every instance ID of the batch is
the batch's sequence for that ID, and the entry of every ID absent from the
batch is what it was before; the session reference is untouched. Publishing
`A ↦ samplesA`, then `B ↦ samplesB`, then `A ↦ newSamplesA` into an empty cache
leaves exactly `A ↦ newSamplesA` and `B ↦ samplesB`. -/
theorem setMetrics_partial_merge (c : enhanced.Collector) (m : GoMap (List prometheus.Metric)) :
    (∀ id metrics, m.lookup id = some metrics →
        (c.setMetrics m).metrics.lookup id = some metrics) ∧
    (∀ id, m.lookup id = none → (c.setMetrics m).metrics.lookup id = c.metrics.lookup id) ∧
    (c.setMetrics m).sessions = c.sessions ∧
    (∀ (A B : String) (samplesA samplesB newSamplesA : List prometheus.Metric) (id : String),
        ((({ c with metrics := ∅ }.setMetrics (sample.single A samplesA)).setMetrics
            (sample.single B samplesB)).setMetrics (sample.single A newSamplesA)).metrics.lookup id =
          if id = A then some newSamplesA else if id = B then some samplesB else none) := by
  refine ⟨?_, ?_, rfl, ?_⟩
  · intro id metrics h
    rw [setMetrics_lookup, h]; rfl
  · intro id h
    rw [setMetrics_lookup, h]; rfl
  · intro A B samplesA samplesB newSamplesA id
    rw [setMetrics_lookup, setMetrics_lookup, setMetrics_lookup, lookup_single, lookup_single,
      lookup_single]
    by_cases hA : id = A
    · simp [hA]
    · by_cases hB : id = B
      · subst hB; simp [hA]
      · simp [hA, hB, AList.lookup_empty]

/-- C1 at a concrete cache: publishing `A` alone overwrites `A` and keeps `B`. -/
theorem setMetrics_partial_merge_witness :
    let c : enhanced.Collector :=
      { sessions := { sessions := ∅ }
        metrics := ((∅ : GoMap (List prometheus.Metric)).insert "A" [sample.gauge "a" 1]).insert
          "B" [sample.gauge "b" 2] }
    let m : GoMap (List prometheus.Metric) := sample.single "A" [sample.gauge "a" 3]
    (c.setMetrics m).metrics.lookup "A" = some [sample.gauge "a" 3] ∧
      (c.setMetrics m).metrics.lookup "B" = c.metrics.lookup "B" :=
  ⟨(setMetrics_partial_merge _ _).1 "A" [sample.gauge "a" 3] rfl,
    (setMetrics_partial_merge _ _).2.1 "B" rfl⟩

/-! ## C2, C3: the scrape interval of a session group -/

theorem getEnabledInstances_foldl (instances acc : List sessions.Instance) :
    instances.foldl
      (fun enabledInstances inst =>
        if inst.DisableEnhancedMetrics then enabledInstances else enabledInstances ++ [inst])
      acc = acc ++ spec.enabled instances := by
  induction instances generalizing acc with
  | nil => simp [spec.enabled]
  | cons i is ih =>
    rw [List.foldl_cons, ih]
    cases h : i.DisableEnhancedMetrics <;> simp [spec.enabled, h]

/-- The loop of `getEnabledInstances` keeps exactly the instances that are not
disabled, in order. -/
theorem getEnabledInstances_eq (instances : List sessions.Instance) :
    enhanced.getEnabledInstances instances = spec.enabled instances := by
  simpa [enhanced.getEnabledInstances] using getEnabledInstances_foldl instances []

/-- The interval loop, started from a positive value, computes the minimum of
that value and the positive reported intervals. -/
theorem interval_foldl (l : List sessions.Instance) (acc : Duration) (hacc : 0 < acc) :
    l.foldl
      (fun interval inst =>
        if 0 < inst.EnhancedMonitoringInterval ∧ inst.EnhancedMonitoringInterval < interval then
          inst.EnhancedMonitoringInterval
        else interval)
      acc =
    ((l.map fun i => i.EnhancedMonitoringInterval).filter fun d => decide (0 < d)).foldl min acc := by
  induction l generalizing acc with
  | nil => rfl
  | cons i is ih =>
    simp only [List.foldl_cons, List.map_cons, List.filter_cons]
    by_cases hpos : 0 < i.EnhancedMonitoringInterval
    · by_cases hlt : i.EnhancedMonitoringInterval < acc
      · simp only [hpos, hlt, and_self, if_true, decide_True, List.foldl_cons]
        rw [ih _ hpos, min_eq_right (le_of_lt hlt)]
      · simp only [hpos, hlt, and_false, if_false, decide_True, if_true, List.foldl_cons]
        rw [ih _ hacc, min_eq_left (not_lt.mp hlt)]
    · simp only [hpos, false_and, if_false, decide_False]
      exact ih _ hacc

theorem foldl_min_le (l : List Duration) (acc : Duration) : l.foldl min acc ≤ acc := by
  induction l generalizing acc with
  | nil => exact le_refl _
  | cons d ds ih =>
    rw [List.foldl_cons]
    exact le_trans (ih _) (min_le_left _ _)

theorem foldl_min_min (l : List Duration) (a b : Duration) :
    l.foldl min (min a b) = min a (l.foldl min b) := by
  induction l generalizing b with
  | nil => rfl
  | cons d ds ih =>
    rw [List.foldl_cons, List.foldl_cons, min_assoc, ih]

theorem scrapeInterval_bounded (enabledInstances : List sessions.Instance) :
    enhanced.minInterval ≤ enhanced.scrapeInterval enabledInstances ∧
      enhanced.scrapeInterval enabledInstances ≤ enhanced.maxInterval := by
  have hmax : (0 : Duration) < enhanced.maxInterval := by decide
  have hmm : enhanced.minInterval ≤ enhanced.maxInterval := by decide
  unfold enhanced.scrapeInterval
  simp only
  rw [interval_foldl _ _ hmax]
  have hle := foldl_min_le
    ((enabledInstances.map fun i => i.EnhancedMonitoringInterval).filter fun d => decide (0 < d))
    enhanced.maxInterval
  split
  · exact ⟨le_refl _, hmm⟩
  · next h => exact ⟨not_lt.mp h, hle⟩

theorem NewCollector_scrapers
    (scrape : session.Session → List sessions.Instance → GoMap (List prometheus.Metric))
    (es : List (Sigma fun _ : session.Session => List sessions.Instance))
    (acc : enhanced.Collector × List enhanced.Scraper) :
    (es.foldl
      (fun (acc : enhanced.Collector × List enhanced.Scraper) e =>
        (acc.1.setMetrics (scrape e.1 (enhanced.getEnabledInstances e.2)),
          acc.2 ++ [{ session := e.1, instances := enhanced.getEnabledInstances e.2,
                      interval := enhanced.scrapeInterval (enhanced.getEnabledInstances e.2) }]))
      acc).2 =
    acc.2 ++ es.map fun e =>
      { session := e.1, instances := enhanced.getEnabledInstances e.2,
        interval := enhanced.scrapeInterval (enhanced.getEnabledInstances e.2) } := by
  induction es generalizing acc with
  | nil => simp
  | cons e es ih => rw [List.foldl_cons, ih]; simp

/-- C2: for every list of instances of a session group (empty, all disabled,
or reporting zero, negative or small intervals included) the interval computed
by `NewCollector` lies between `minInterval` = 2s and `maxInterval` = 60s; so
does the interval of every scraper that `NewCollector` starts. -/
theorem scrapeInterval_within_bounds :
    enhanced.minInterval = 2 * time.Second ∧ enhanced.maxInterval = 60 * time.Second ∧
    (∀ instances : List sessions.Instance,
      enhanced.minInterval ≤ enhanced.scrapeInterval (enhanced.getEnabledInstances instances) ∧
        enhanced.scrapeInterval (enhanced.getEnabledInstances instances) ≤ enhanced.maxInterval) ∧
    (∀ scrape sessions (sc : enhanced.Scraper), sc ∈ (enhanced.NewCollector scrape sessions).2 →
      enhanced.minInterval ≤ sc.interval ∧ sc.interval ≤ enhanced.maxInterval) := by
  refine ⟨rfl, rfl, fun instances => scrapeInterval_bounded _, ?_⟩
  intro scrape sessions sc hsc
  have h := NewCollector_scrapers scrape sessions.AllSessions.entries
    ({ sessions := sessions, metrics := ∅ }, [])
  have hsc' : sc ∈ (sessions.AllSessions.entries.foldl
      (fun (acc : enhanced.Collector × List enhanced.Scraper) e =>
        (acc.1.setMetrics (scrape e.1 (enhanced.getEnabledInstances e.2)),
          acc.2 ++ [{ session := e.1, instances := enhanced.getEnabledInstances e.2,
                      interval := enhanced.scrapeInterval (enhanced.getEnabledInstances e.2) }]))
      ({ sessions := sessions, metrics := ∅ }, [])).2 := hsc
  rw [h] at hsc'
  simp only [List.nil_append, List.mem_map] at hsc'
  obtain ⟨e, _, rfl⟩ := hsc'
  exact scrapeInterval_bounded _

/-- C2 at a concrete pool: one group whose only enabled instance reports 1s,
next to a disabled instance reporting 5s; its scraper runs at the 2s floor. -/
theorem scrapeInterval_within_bounds_witness :
    sample.scraper ∈ (enhanced.NewCollector (fun _ _ => ∅) sample.pool).2 ∧
      enhanced.minInterval ≤ sample.scraper.interval ∧
      sample.scraper.interval ≤ enhanced.maxInterval :=
  have h : sample.scraper ∈ (enhanced.NewCollector (fun _ _ => ∅) sample.pool).2 :=
    List.Mem.head _
  ⟨h, scrapeInterval_within_bounds.2.2.2 (fun _ _ => ∅) sample.pool sample.scraper h⟩

/-- C3 as stated fails: a group whose enabled instances report 0 and 30s is
scraped every 30s, while the clamped minimum over all enabled instances is the
2s floor. -/
theorem clampedMinimum_counterexample :
    enhanced.scrapeInterval (enhanced.getEnabledInstances
        [sample.instance_ "a" false 0, sample.instance_ "b" false 30000000000]) = 30000000000 ∧
      spec.clampedMinimum
        [sample.instance_ "a" false 0, sample.instance_ "b" false 30000000000] = some 2000000000 := by
  decide

/-- C3, amended: for every session group the interval computed by
`NewCollector` is the minimum of the positive `EnhancedMonitoringInterval`
values of the instances returned by `getEnabledInstances`, clamped to
`[minInterval, maxInterval]`; it is `maxInterval` when no enabled instance
reports a positive interval. -/
theorem scrapeInterval_eq_clampedPositiveMinimum (instances : List sessions.Instance) :
    enhanced.scrapeInterval (enhanced.getEnabledInstances instances) =
      spec.clampedPositiveMinimum instances := by
  have hmax : (0 : Duration) < enhanced.maxInterval := by decide
  have hmm : ¬ enhanced.maxInterval < enhanced.minInterval := by decide
  unfold enhanced.scrapeInterval spec.clampedPositiveMinimum
  simp only
  rw [getEnabledInstances_eq, interval_foldl _ _ hmax]
  cases hp : ((spec.enabled instances).map fun i => i.EnhancedMonitoringInterval).filter
      fun d => decide (0 < d) with
  | nil => simp [List.min?, hmm]
  | cons d ds =>
    simp only [List.min?, List.foldl_cons, foldl_min_min, spec.clamp]
    split
    · next h => exact (max_eq_left (le_of_lt h)).symm
    · next h => exact (max_eq_right (not_lt.mp h)).symm

/-! ## C4, C5, C6: the Performance Insights materializer -/

theorem replaceFrom_dot (cs : List Char) :
    strings.replaceFrom ['.'] ['_'] 0 cs = cs.map fun c => if c = '.' then '_' else c := by
  induction cs with
  | nil => rfl
  | cons c cs ih =>
    by_cases h : c = '.'
    · subst h
      simp [strings.replaceFrom, ih]
    · have h' : ¬ '.' = c := fun e => h e.symm
      simp [strings.replaceFrom, ih, h, h']

/-- On the separator `"."` the library call is the character-wise
substitution. -/
theorem ReplaceAll_dot (s : String) :
    strings.ReplaceAll s "." "_" = spec.dotsToUnderscores s := by
  have h : ¬ (".".data = []) := by decide
  unfold strings.ReplaceAll spec.dotsToUnderscores
  rw [if_neg h]
  exact congrArg String.mk (replaceFrom_dot s.data)

theorem dotsToUnderscores_no_dot (s : String) : '.' ∉ (spec.dotsToUnderscores s).data := by
  unfold spec.dotsToUnderscores
  simp only [List.mem_map, not_exists, not_and]
  intro c _ hc
  by_cases h : c = '.'
  · rw [if_pos h] at hc; exact absurd hc (by decide)
  · rw [if_neg h] at hc; exact h hc

theorem dimensions_foldl (es : List (Sigma fun _ : String => String))
    (acc : List String × List String) :
    es.foldl
      (fun (acc : List String × List String) e =>
        (acc.1 ++ [strings.ReplaceAll e.1 "." "_"], acc.2 ++ [e.2]))
      acc =
    (acc.1 ++ es.map (fun e => spec.dotsToUnderscores e.1), acc.2 ++ es.map fun e => e.2) := by
  induction es generalizing acc with
  | nil => simp
  | cons e es ih => rw [List.foldl_cons, ih]; simp [ReplaceAll_dot]

/-- The variable labels of an entry: the dimension keys with the separator
substituted, and the dimension values, in the order of the map. -/
theorem makeMetric_labels_eq (m : performance_insights.metric) :
    performance_insights.makeMetric.labels m =
      (m.Key.Dimensions.entries.map (fun e => spec.dotsToUnderscores e.1),
        m.Key.Dimensions.entries.map fun e => e.2) := by
  have hd := dimensions_foldl m.Key.Dimensions.entries ([], [])
  simp only [List.nil_append] at hd
  exact hd

/-- The descriptor of an entry, as handed to `NewDesc`. -/
theorem makeMetric_desc_eq (checks : prometheus.Checks) (m : performance_insights.metric)
    (constLabels : GoMap String) :
    performance_insights.makeMetric.desc checks m constLabels =
      prometheus.NewDesc checks ("rds_pi_" ++ spec.dotsToUnderscores m.Key.Metric)
        (m.Key.Metric ++ " metric from RDS Performance Insights")
        (m.Key.Dimensions.entries.map fun e => spec.dotsToUnderscores e.1) constLabels := by
  unfold performance_insights.makeMetric.desc
  simp only [ReplaceAll_dot, makeMetric_labels_eq]

/-- An entry without data points makes `makeMetric` panic on the index. -/
theorem makeMetric_nil (checks : prometheus.Checks) (float64OfInt : Int → prometheus.Float64)
    (m : performance_insights.metric) (constLabels : GoMap String) (h : m.DataPoints = []) :
    performance_insights.makeMetric checks float64OfInt m constLabels =
      .error (.panic "index out of range [0] with length 0") := by
  unfold performance_insights.makeMetric
  rw [h]

/-- An entry with a data point and a rejected descriptor makes `makeMetric`
panic with the descriptor's error. -/
theorem makeMetric_rejected (checks : prometheus.Checks)
    (float64OfInt : Int → prometheus.Float64) (m : performance_insights.metric)
    (constLabels : GoMap String) (dataPoint : performance_insights.metricDataPoint)
    (rest : List performance_insights.metricDataPoint) (h : m.DataPoints = dataPoint :: rest)
    (err : String) (he : (performance_insights.makeMetric.desc checks m constLabels).err = some err) :
    performance_insights.makeMetric checks float64OfInt m constLabels = .error (.panic err) := by
  unfold performance_insights.makeMetric
  rw [h]
  simp only [performance_insights.makeGauge, performance_insights.makeGauge.ofKind,
    prometheus.MustNewConstMetric, he]

/-- An entry with a data point and an accepted descriptor gives the gauge of
its first point. -/
theorem makeMetric_accepted (checks : prometheus.Checks)
    (float64OfInt : Int → prometheus.Float64) (m : performance_insights.metric)
    (constLabels : GoMap String) (dataPoint : performance_insights.metricDataPoint)
    (rest : List performance_insights.metricDataPoint) (h : m.DataPoints = dataPoint :: rest)
    (he : (performance_insights.makeMetric.desc checks m constLabels).err = none) :
    performance_insights.makeMetric checks float64OfInt m constLabels =
      .ok (some
        { desc := performance_insights.makeMetric.desc checks m constLabels
          value := dataPoint.Value
          labelValues := m.Key.Dimensions.entries.map fun e => e.2 }) := by
  have hlen : (performance_insights.makeMetric.labels m).2.length =
      (performance_insights.makeMetric.desc checks m constLabels).variableLabels.length := by
    rw [makeMetric_desc_eq, makeMetric_labels_eq]
    simp [prometheus.NewDesc]
  unfold performance_insights.makeMetric
  rw [h]
  simp only [performance_insights.makeGauge, performance_insights.makeGauge.ofKind,
    prometheus.MustNewConstMetric, he, hlen, if_true]
  rw [makeMetric_labels_eq]

/-- What a returned sample is: the entry has a first point, its descriptor is
accepted, and the sample is the gauge of that point. -/
theorem makeMetric_ok (checks : prometheus.Checks) (float64OfInt : Int → prometheus.Float64)
    (m : performance_insights.metric) (constLabels : GoMap String)
    (o : Option prometheus.Metric)
    (h : performance_insights.makeMetric checks float64OfInt m constLabels = .ok o) :
    ∃ dataPoint rest, m.DataPoints = dataPoint :: rest ∧
      (performance_insights.makeMetric.desc checks m constLabels).err = none ∧
      o = some
        { desc := performance_insights.makeMetric.desc checks m constLabels
          value := dataPoint.Value
          labelValues := m.Key.Dimensions.entries.map fun e => e.2 } := by
  cases hp : m.DataPoints with
  | nil => rw [makeMetric_nil checks float64OfInt m constLabels hp] at h; exact absurd h (by simp)
  | cons dataPoint rest =>
    cases he : (performance_insights.makeMetric.desc checks m constLabels).err with
    | some err =>
      rw [makeMetric_rejected checks float64OfInt m constLabels dataPoint rest hp err he] at h
      exact absurd h (by simp)
    | none =>
      rw [makeMetric_accepted checks float64OfInt m constLabels dataPoint rest hp he] at h
      simp only [Except.ok.injEq] at h
      exact ⟨dataPoint, rest, rfl, rfl, h.symm⟩

/-- Every failure of `makeMetric` is a panic. -/
theorem makeMetric_error (checks : prometheus.Checks) (float64OfInt : Int → prometheus.Float64)
    (m : performance_insights.metric) (constLabels : GoMap String) (e : Failure)
    (h : performance_insights.makeMetric checks float64OfInt m constLabels = .error e) :
    (∃ msg, e = .panic msg) ∧
      ((performance_insights.makeMetric.desc checks m constLabels).err = none →
        e = .panic "index out of range [0] with length 0") := by
  cases hp : m.DataPoints with
  | nil =>
    rw [makeMetric_nil checks float64OfInt m constLabels hp] at h
    simp only [Except.error.injEq] at h
    exact ⟨⟨_, h.symm⟩, fun _ => h.symm⟩
  | cons dataPoint rest =>
    cases he : (performance_insights.makeMetric.desc checks m constLabels).err with
    | some err =>
      rw [makeMetric_rejected checks float64OfInt m constLabels dataPoint rest hp err he] at h
      simp only [Except.error.injEq] at h
      exact ⟨⟨_, h.symm⟩, fun hn => absurd hn (by simp)⟩
    | none =>
      rw [makeMetric_accepted checks float64OfInt m constLabels dataPoint rest hp he] at h
      exact absurd h (by simp)

/-- When `NewDesc` accepts its arguments: all names pass the library's tests and
no label name occurs twice among the constant and variable labels. -/
theorem NewDesc_err_none_iff (checks : prometheus.Checks) (fqName help : String)
    (variableLabels : List String) (constLabels : GoMap String) :
    (prometheus.NewDesc checks fqName help variableLabels constLabels).err = none ↔
      checks.validMetricName fqName = true ∧
      (∀ n ∈ constLabels.keys, checks.validLabelName n = true) ∧
      (∀ n ∈ variableLabels, checks.validLabelName n = true) ∧
      (constLabels.keys ++ variableLabels).Nodup := by
  unfold prometheus.NewDesc
  simp only
  by_cases h1 : checks.validMetricName fqName = false
  · simp [h1]
  · by_cases h2 : constLabels.keys.all checks.validLabelName = false
    · have : ¬ ∀ n ∈ constLabels.keys, checks.validLabelName n = true := by
        intro hall
        rw [List.all_eq_true.mpr hall] at h2
        exact absurd h2 (by simp)
      simp [h1, h2, this]
    · by_cases h3 : variableLabels.all checks.validLabelName = false
      · have : ¬ ∀ n ∈ variableLabels, checks.validLabelName n = true := by
          intro hall
          rw [List.all_eq_true.mpr hall] at h3
          exact absurd h3 (by simp)
        simp [h1, h2, h3, this]
      · have h1' : checks.validMetricName fqName = true := by simpa using h1
        have h2' : ∀ n ∈ constLabels.keys, checks.validLabelName n = true :=
          List.all_eq_true.mp (by simpa using h2)
        have h3' : ∀ n ∈ variableLabels, checks.validLabelName n = true :=
          List.all_eq_true.mp (by simpa using h3)
        rw [if_neg h1, if_neg h2, if_neg h3]
        by_cases h4 : (constLabels.keys ++ variableLabels).Nodup
        · rw [if_pos h4]
          exact ⟨fun _ => ⟨h1', h2', h3', h4⟩, fun _ => rfl⟩
        · rw [if_neg h4]
          exact ⟨fun h => absurd h (by simp), fun h => absurd h.2.2.2 h4⟩

/-- The extra-label loop of `makePrometheusMetrics` over a duplicate-free list:
a name of the list ends absent when its value is empty and with its value
otherwise; any other name keeps what the accumulator had. -/
theorem lookup_foldl_labels (es : List (Sigma fun _ : String => String)) (hes : es.NodupKeys)
    (acc : GoMap String) (n : String) :
    (es.foldl
      (fun (constLabels : GoMap String) e =>
        if e.2 = "" then constLabels.erase e.1 else constLabels.insert e.1 e.2)
      acc).lookup n =
    (es.dlookup n).elim (acc.lookup n) (fun v => if v = "" then none else some v) := by
  induction es generalizing acc with
  | nil => simp
  | cons e es ih =>
    obtain ⟨hk, hes'⟩ := List.nodupKeys_cons.mp hes
    rw [List.foldl_cons, ih hes']
    obtain ⟨a, b⟩ := e
    by_cases h : n = a
    · subst h
      have hnone : es.dlookup n = none := List.dlookup_eq_none.mpr hk
      rw [hnone, List.dlookup_cons_eq]
      by_cases hb : b = ""
      · simp [hb, AList.lookup_erase]
      · simp [hb, AList.lookup_insert]
    · rw [List.dlookup_cons_ne es ⟨a, b⟩ h]
      by_cases hb : b = ""
      · simp [hb, AList.lookup_erase_ne h]
      · simp [hb, AList.lookup_insert_ne h]

theorem baseLabels_lookup (instanceIdentifier region n : String) :
    (((∅ : GoMap String).insert "region" region).insert "instance_identifier"
        instanceIdentifier).lookup n =
      if n = "instance_identifier" then some instanceIdentifier
      else if n = "region" then some region
      else none := by
  by_cases h1 : n = "instance_identifier"
  · subst h1; rw [AList.lookup_insert]; simp
  · rw [AList.lookup_insert_ne h1, if_neg h1]
    by_cases h2 : n = "region"
    · subst h2; rw [AList.lookup_insert]; simp
    · rw [AList.lookup_insert_ne h2, if_neg h2, AList.lookup_empty]

section FoldlM

variable {A B : Type}

/-- A loop that appends the result of a fallible call per element returns,
when it returns, its start value followed by the results in order. -/
theorem foldlM_append_ok (g : A → Except Failure B) (l : List A) (init res : List B)
    (h : l.foldlM (fun res a => do let b ← g a; pure (res ++ [b])) init = .ok res) :
    ∃ tail, res = init ++ tail ∧ List.Forall₂ (fun a b => g a = .ok b) l tail := by
  induction l generalizing init with
  | nil =>
    refine ⟨[], ?_, List.Forall₂.nil⟩
    simp only [List.foldlM_nil, pure, Except.pure, Except.ok.injEq] at h
    simp [h]
  | cons a l ih =>
    rw [List.foldlM_cons] at h
    cases hg : g a with
    | error f => simp [hg, bind, Except.bind] at h
    | ok b =>
      simp only [hg, bind, Except.bind, pure, Except.pure] at h
      obtain ⟨tail, rfl, hf⟩ := ih _ h
      exact ⟨b :: tail, by simp, List.Forall₂.cons hg hf⟩

/-- Such a loop returns when every call does. -/
theorem foldlM_append_of_forall₂ (g : A → Except Failure B) (l : List A) (init tail : List B)
    (h : List.Forall₂ (fun a b => g a = .ok b) l tail) :
    l.foldlM (fun res a => do let b ← g a; pure (res ++ [b])) init = .ok (init ++ tail) := by
  induction h generalizing init with
  | nil => simp [pure, Except.pure]
  | cons hg _ ih =>
    rw [List.foldlM_cons]
    simp only [hg, bind, Except.bind, pure, Except.pure] at ih ⊢
    rw [ih]
    simp

end FoldlM

theorem constLabels_lookup (instanceIdentifier region : String) (labels : GoMap String)
    (n : String) :
    (performance_insights.performanceInsightsMetrics.makePrometheusMetrics.constLabels
      instanceIdentifier region labels).lookup n =
    spec.constLabel instanceIdentifier region labels n := by
  have h := lookup_foldl_labels labels.entries labels.nodupKeys
    (((∅ : GoMap String).insert "region" region).insert "instance_identifier" instanceIdentifier) n
  unfold spec.constLabel
  rw [← baseLabels_lookup]
  show _ = match labels.entries.dlookup n with
    | some v => if v = "" then none else some v
    | none => _
  cases hl : labels.entries.dlookup n with
  | none => rw [hl] at h; exact h
  | some v => rw [hl] at h; exact h

/-- C4 as stated fails: an extra label named `region` with the empty value
removes the `region` label of the sample, and one with a non-empty value
replaces the caller's region. -/
theorem constLabels_counterexample :
    (∃ pm, sample.payload.makePrometheusMetrics sample.checks sample.float64OfInt "db-ABC"
        "us-east-1" (sample.single "region" "") = .ok [some pm] ∧
      pm.desc.constLabels.lookup "region" = none) ∧
    (∃ pm, sample.payload.makePrometheusMetrics sample.checks sample.float64OfInt "db-ABC"
        "us-east-1" (sample.single "region" "elsewhere") = .ok [some pm] ∧
      pm.desc.constLabels.lookup "region" = some "elsewhere") :=
  ⟨⟨_, rfl, rfl⟩, ⟨_, rfl, rfl⟩⟩

/-- C4, amended: every sample returned by `makePrometheusMetrics` carries, as
constant labels, `region` and `instance_identifier` with the caller's values
overridden by the extra labels (an extra label with a non-empty value sets the
label of its name, an extra label with the empty value removes the label of
its name), and as variable labels one label per dimension `(k, v)`, named `k`
with every `'.'` replaced by `'_'` and valued `v`. In particular `region` and
`instance_identifier` carry the caller's values whenever no extra label bears
that name. -/
theorem makePrometheusMetrics_labels (checks : prometheus.Checks)
    (float64OfInt : Int → prometheus.Float64)
    (p : performance_insights.performanceInsightsMetrics) (instanceIdentifier region : String)
    (labels : GoMap String) (res : List (Option prometheus.Metric))
    (h : p.makePrometheusMetrics checks float64OfInt instanceIdentifier region labels = .ok res) :
    List.Forall₂
      (fun (mt : performance_insights.metric) (o : Option prometheus.Metric) =>
        ∃ pm, o = some pm ∧
          (∀ n, pm.desc.constLabels.lookup n =
            spec.constLabel instanceIdentifier region labels n) ∧
          (labels.lookup "region" = none → pm.desc.constLabels.lookup "region" = some region) ∧
          (labels.lookup "instance_identifier" = none →
            pm.desc.constLabels.lookup "instance_identifier" = some instanceIdentifier) ∧
          pm.desc.variableLabels =
            mt.Key.Dimensions.entries.map (fun e => spec.dotsToUnderscores e.1) ∧
          pm.labelValues = mt.Key.Dimensions.entries.map (fun e => e.2))
      p.MetricList res := by
  obtain ⟨tail, rfl, hf⟩ := foldlM_append_ok _ _ _ _ h
  refine hf.imp ?_
  intro mt o ho
  obtain ⟨dataPoint, rest, _, _, ho'⟩ := makeMetric_ok checks float64OfInt mt _ o ho
  have hcl : ∀ n, AList.lookup n
      (performance_insights.makeMetric.desc checks mt
        (performance_insights.performanceInsightsMetrics.makePrometheusMetrics.constLabels
          instanceIdentifier region labels)).constLabels =
      spec.constLabel instanceIdentifier region labels n := by
    intro n
    rw [makeMetric_desc_eq]
    exact constLabels_lookup _ _ _ n
  refine ⟨_, ho', hcl, ?_, ?_, ?_, rfl⟩
  · intro hn
    show AList.lookup "region" (performance_insights.makeMetric.desc checks mt _).constLabels = _
    rw [hcl, spec.constLabel, hn]
    rfl
  · intro hn
    show AList.lookup "instance_identifier"
      (performance_insights.makeMetric.desc checks mt _).constLabels = _
    rw [hcl, spec.constLabel, hn]
    rfl
  · show (performance_insights.makeMetric.desc checks mt _).variableLabels = _
    rw [makeMetric_desc_eq]
    rfl

/-- C4 at the specification's example: the dimension `db.sql.tokenized_ids = abc`
gives the label `db_sql_tokenized_ids = abc`, next to `region`,
`instance_identifier` and the non-empty extra label `env`; the empty extra
label `team` gives none. -/
theorem makePrometheusMetrics_labels_witness :
    ∃ res, sample.payload.makePrometheusMetrics sample.checks sample.float64OfInt "db-ABC"
        "us-east-1" sample.extras = .ok res ∧
      (∃ pm, res = [some pm] ∧
        pm.desc.variableLabels = ["db_sql_tokenized_ids"] ∧ pm.labelValues = ["abc"] ∧
        pm.desc.constLabels.lookup "region" = some "us-east-1" ∧
        pm.desc.constLabels.lookup "instance_identifier" = some "db-ABC" ∧
        pm.desc.constLabels.lookup "env" = some "prod" ∧
        pm.desc.constLabels.lookup "team" = none) ∧
      List.Forall₂
        (fun (mt : performance_insights.metric) (o : Option prometheus.Metric) =>
          ∃ pm, o = some pm ∧
            (∀ n, pm.desc.constLabels.lookup n =
              spec.constLabel "db-ABC" "us-east-1" sample.extras n) ∧
            (sample.extras.lookup "region" = none →
              pm.desc.constLabels.lookup "region" = some "us-east-1") ∧
            (sample.extras.lookup "instance_identifier" = none →
              pm.desc.constLabels.lookup "instance_identifier" = some "db-ABC") ∧
            pm.desc.variableLabels =
              mt.Key.Dimensions.entries.map (fun e => spec.dotsToUnderscores e.1) ∧
            pm.labelValues = mt.Key.Dimensions.entries.map (fun e => e.2))
        sample.payload.MetricList res :=
  ⟨_, rfl, ⟨_, rfl, rfl, rfl, rfl, rfl, rfl, rfl⟩,
    makePrometheusMetrics_labels sample.checks sample.float64OfInt sample.payload "db-ABC"
      "us-east-1" sample.extras _ rfl⟩

/-- C5 as stated fails: an entry with a data point whose dimension is named
`region` gets a descriptor with `region` both as constant and as variable
label; `NewDesc` rejects it and `MustNewConstMetric` panics, under the
strictest name rules as under rules that accept every name. -/
theorem makePrometheusMetrics_first_point_counterexample :
    (∀ mt ∈ sample.clashingPayload.MetricList, mt.DataPoints ≠ []) ∧
    sample.clashingPayload.makePrometheusMetrics sample.checks sample.float64OfInt "db-ABC"
        "us-east-1" ∅ =
      .error (.panic "duplicate label names in constant and variable labels") ∧
    sample.clashingPayload.makePrometheusMetrics sample.permissive sample.float64OfInt "db-ABC"
        "us-east-1" ∅ =
      .error (.panic "duplicate label names in constant and variable labels") :=
  ⟨fun mt hmt => by rw [List.mem_singleton.mp hmt]; exact List.cons_ne_nil _ _, rfl, rfl⟩

/-- C5, amended: when every entry of the payload has at least one data point
and a descriptor that `NewDesc` accepts, `makePrometheusMetrics` returns one
sample per entry, in the entries' order, and the value of each sample is the
value of the first data point of its entry, whatever the later points are. -/
theorem makePrometheusMetrics_first_point (checks : prometheus.Checks)
    (float64OfInt : Int → prometheus.Float64)
    (p : performance_insights.performanceInsightsMetrics) (instanceIdentifier region : String)
    (labels : GoMap String) (h : ∀ mt ∈ p.MetricList, mt.DataPoints ≠ [])
    (hdesc : ∀ mt ∈ p.MetricList,
      (performance_insights.makeMetric.desc checks mt
        (performance_insights.performanceInsightsMetrics.makePrometheusMetrics.constLabels
          instanceIdentifier region labels)).err = none) :
    ∃ res, p.makePrometheusMetrics checks float64OfInt instanceIdentifier region labels =
        .ok res ∧
      res.length = p.MetricList.length ∧
      List.Forall₂
        (fun (mt : performance_insights.metric) (o : Option prometheus.Metric) =>
          ∃ pm, o = some pm ∧ (mt.DataPoints.head?.map fun d => d.Value) = some pm.value)
        p.MetricList res := by
  have key : ∀ (cl : GoMap String) (l : List performance_insights.metric),
      (∀ mt ∈ l, mt.DataPoints ≠ []) →
      (∀ mt ∈ l, (performance_insights.makeMetric.desc checks mt cl).err = none) →
      ∃ tail, List.Forall₂
          (fun mt o => performance_insights.makeMetric checks float64OfInt mt cl = .ok o)
          l tail ∧
        List.Forall₂
          (fun (mt : performance_insights.metric) (o : Option prometheus.Metric) =>
            ∃ pm, o = some pm ∧ (mt.DataPoints.head?.map fun d => d.Value) = some pm.value)
          l tail := by
    intro cl l
    induction l with
    | nil => intro _ _; exact ⟨[], List.Forall₂.nil, List.Forall₂.nil⟩
    | cons mt l ih =>
      intro hl hd
      obtain ⟨tail, h1, h2⟩ := ih (fun mt hmt => hl mt (List.mem_cons_of_mem _ hmt))
        (fun mt hmt => hd mt (List.mem_cons_of_mem _ hmt))
      have hne := hl mt (List.mem_cons_self _ _)
      cases hp : mt.DataPoints with
      | nil => exact absurd hp hne
      | cons dataPoint rest =>
        have hm := makeMetric_accepted checks float64OfInt mt cl dataPoint rest hp
          (hd mt (List.mem_cons_self _ _))
        exact ⟨_ :: tail, List.Forall₂.cons hm h1,
          List.Forall₂.cons ⟨_, rfl, by rw [hp]; rfl⟩ h2⟩
  obtain ⟨tail, h1, h2⟩ := key _ p.MetricList h hdesc
  refine ⟨tail, ?_, h2.length_eq.symm, h2⟩
  have := foldlM_append_of_forall₂ _ _ [] _ h1
  rw [List.nil_append] at this
  exact this

/-- C5 at the specification's example: the points `(t1, 4.0)`, `(t0, 7.0)`
yield the value 4.0. -/
theorem makePrometheusMetrics_first_point_witness :
    (∀ mt ∈ sample.payload.MetricList, mt.DataPoints ≠ []) ∧
    (∀ mt ∈ sample.payload.MetricList,
      (performance_insights.makeMetric.desc sample.checks mt
        (performance_insights.performanceInsightsMetrics.makePrometheusMetrics.constLabels
          "db-ABC" "us-east-1" ∅)).err = none) ∧
    (∃ pm, sample.payload.makePrometheusMetrics sample.checks sample.float64OfInt "db-ABC"
        "us-east-1" ∅ = .ok [some pm] ∧ pm.value = sample.four) ∧
    ∃ res, sample.payload.makePrometheusMetrics sample.checks sample.float64OfInt "db-ABC"
        "us-east-1" ∅ = .ok res ∧
      res.length = sample.payload.MetricList.length ∧
      List.Forall₂
        (fun (mt : performance_insights.metric) (o : Option prometheus.Metric) =>
          ∃ pm, o = some pm ∧ (mt.DataPoints.head?.map fun d => d.Value) = some pm.value)
        sample.payload.MetricList res :=
  have h : ∀ mt ∈ sample.payload.MetricList, mt.DataPoints ≠ [] := by
    intro mt hmt
    rw [List.mem_singleton.mp hmt]
    exact List.cons_ne_nil _ _
  have hdesc : ∀ mt ∈ sample.payload.MetricList,
      (performance_insights.makeMetric.desc sample.checks mt
        (performance_insights.performanceInsightsMetrics.makePrometheusMetrics.constLabels
          "db-ABC" "us-east-1" ∅)).err = none := by
    intro mt hmt
    rw [List.mem_singleton.mp hmt]
    rfl
  ⟨h, hdesc, ⟨_, rfl, rfl⟩,
    makePrometheusMetrics_first_point sample.checks sample.float64OfInt sample.payload "db-ABC"
      "us-east-1" ∅ h hdesc⟩

/-- C6: for every metric key, the name `makeMetric` derives for the sample is
`rds_pi_` followed by the key with every `'.'` replaced by `'_'`, and that name
contains no `'.'`; it is the name of every sample `makeMetric` returns, and
the sample is returned when the entry has a data point and `NewDesc` accepts
the descriptor. -/
theorem makeMetric_name (checks : prometheus.Checks) (float64OfInt : Int → prometheus.Float64)
    (m : performance_insights.metric) (constLabels : GoMap String) :
    (performance_insights.makeMetric.desc checks m constLabels).fqName =
      "rds_pi_" ++ spec.dotsToUnderscores m.Key.Metric ∧
    '.' ∉ (performance_insights.makeMetric.desc checks m constLabels).fqName.data ∧
    (∀ o, performance_insights.makeMetric checks float64OfInt m constLabels = .ok o →
      ∃ pm, o = some pm ∧
        pm.desc.fqName = "rds_pi_" ++ spec.dotsToUnderscores m.Key.Metric ∧
        '.' ∉ pm.desc.fqName.data) ∧
    (m.DataPoints ≠ [] →
      (performance_insights.makeMetric.desc checks m constLabels).err = none →
      ∃ pm, performance_insights.makeMetric checks float64OfInt m constLabels =
        .ok (some pm)) := by
  have hname : (performance_insights.makeMetric.desc checks m constLabels).fqName =
      "rds_pi_" ++ spec.dotsToUnderscores m.Key.Metric := by
    rw [makeMetric_desc_eq]
    rfl
  have hdot : '.' ∉ (performance_insights.makeMetric.desc checks m constLabels).fqName.data := by
    rw [hname]
    simp only [String.data_append, List.mem_append, not_or]
    exact ⟨by decide, dotsToUnderscores_no_dot _⟩
  refine ⟨hname, hdot, ?_, ?_⟩
  · intro o ho
    obtain ⟨dataPoint, rest, _, _, ho'⟩ := makeMetric_ok checks float64OfInt m constLabels o ho
    exact ⟨_, ho', hname, hdot⟩
  · intro hne herr
    cases hp : m.DataPoints with
    | nil => exact absurd hp hne
    | cons dataPoint rest =>
      exact ⟨_, makeMetric_accepted checks float64OfInt m constLabels dataPoint rest hp herr⟩

/-- C6 at the specification's example: the key `db.SQL.Innodb_rows_read.avg`
yields the name `rds_pi_db_SQL_Innodb_rows_read_avg`. -/
theorem makeMetric_name_witness :
    (performance_insights.makeMetric.desc sample.checks sample.entry ∅).fqName =
      "rds_pi_db_SQL_Innodb_rows_read_avg" ∧
    '.' ∉ (performance_insights.makeMetric.desc sample.checks sample.entry ∅).fqName.data ∧
    sample.entry.DataPoints ≠ [] ∧
    (performance_insights.makeMetric.desc sample.checks sample.entry ∅).err = none ∧
    ∃ pm, performance_insights.makeMetric sample.checks sample.float64OfInt sample.entry ∅ =
        .ok (some pm) :=
  have hne : sample.entry.DataPoints ≠ [] := List.cons_ne_nil _ _
  have herr : (performance_insights.makeMetric.desc sample.checks sample.entry ∅).err = none :=
    rfl
  ⟨rfl, (makeMetric_name sample.checks sample.float64OfInt sample.entry ∅).2.1, hne, herr,
    (makeMetric_name sample.checks sample.float64OfInt sample.entry ∅).2.2.2 hne herr⟩

/-! ## C8, C9: what the pool returned by `sessions.New` contains -/

section ExceptLoops

variable {σ β ε : Type}

/-- A property kept by every successful iteration is kept by a successful
loop. -/
theorem foldlM_preserves (f : σ → β → Except ε σ) (P : σ → Prop)
    (hstep : ∀ st b st', P st → f st b = .ok st' → P st') (l : List β) (st st' : σ)
    (hst : P st) (h : l.foldlM f st = .ok st') : P st' := by
  induction l generalizing st with
  | nil =>
    simp only [List.foldlM_nil, pure, Except.pure, Except.ok.injEq] at h
    exact h ▸ hst
  | cons b l ih =>
    rw [List.foldlM_cons] at h
    cases hf : f st b with
    | error e => simp [hf, bind, Except.bind] at h
    | ok st1 =>
      simp only [hf, bind, Except.bind] at h
      exact ih st1 (hstep st b st1 hst hf) h

end ExceptLoops

theorem removeEmpty_foldl_lookup (es : List (Sigma fun _ : String => session.Session))
    (m : sessions.SessionMap) (s : session.Session) (l : List sessions.Instance)
    (h : (es.foldl
      (fun (m : sessions.SessionMap) e =>
        if ((m.lookup e.2).getD []).length = 0 then m.erase e.2 else m) m).lookup s = some l) :
    m.lookup s = some l := by
  induction es generalizing m with
  | nil => exact h
  | cons e es ih =>
    rw [List.foldl_cons] at h
    have h1 := ih _ h
    by_cases hz : ((m.lookup e.2).getD []).length = 0
    · rw [if_pos hz] at h1
      by_cases hs : s = e.2
      · subst hs; rw [AList.lookup_erase] at h1; exact absurd h1 (by simp)
      · rwa [AList.lookup_erase_ne hs] at h1
    · rwa [if_neg hz] at h1

theorem removeEmpty_foldl_nonempty (es : List (Sigma fun _ : String => session.Session))
    (m : sessions.SessionMap) (s : session.Session) (hs : ∃ e ∈ es, e.2 = s) :
    (es.foldl
      (fun (m : sessions.SessionMap) e =>
        if ((m.lookup e.2).getD []).length = 0 then m.erase e.2 else m) m).lookup s ≠ some [] := by
  induction es generalizing m with
  | nil => obtain ⟨e, he, _⟩ := hs; exact absurd he (List.not_mem_nil _)
  | cons e es ih =>
    rw [List.foldl_cons]
    obtain ⟨e', he', hes⟩ := hs
    rcases List.mem_cons.mp he' with heq | hmem
    · subst heq
      intro hcontra
      have h1 := removeEmpty_foldl_lookup es _ s [] hcontra
      by_cases hz : ((m.lookup e'.2).getD []).length = 0
      · rw [if_pos hz, hes, AList.lookup_erase] at h1; exact absurd h1 (by simp)
      · rw [if_neg hz] at h1
        rw [hes, h1] at hz
        exact hz rfl
    · exact ih _ ⟨e', hmem, hes⟩

/-- Pruning only removes groups: a group of the pruned pool was a group, with
the same instances, before. -/
theorem removeEmpty_lookup (sharedSessions : GoMap session.Session) (m : sessions.SessionMap)
    (s : session.Session) (l : List sessions.Instance)
    (h : (sessions.New.removeEmpty sharedSessions m).lookup s = some l) : m.lookup s = some l :=
  removeEmpty_foldl_lookup sharedSessions.entries m s l h

/-- Pruning leaves no empty group under a session registered in
`sharedSessions`. -/
theorem removeEmpty_nonempty (sharedSessions : GoMap session.Session) (m : sessions.SessionMap)
    (s : session.Session) (k : String) (hk : sharedSessions.lookup k = some s) :
    (sessions.New.removeEmpty sharedSessions m).lookup s ≠ some [] :=
  removeEmpty_foldl_nonempty sharedSessions.entries m s
    ⟨⟨k, s⟩, AList.mem_lookup_iff.mp hk, rfl⟩

/-- The filtering loop maps every group to its instances with a resource ID. -/
theorem removeUnresolved_lookup (m : sessions.SessionMap) (s : session.Session) :
    (sessions.New.removeUnresolved m).lookup s =
      (m.lookup s).map fun l => l.filter fun i => decide (i.ResourceID ≠ "") := by
  have h := lookup_foldl_insert
    (fun (_ : session.Session) (l : List sessions.Instance) =>
      l.filter fun i => decide (i.ResourceID ≠ ""))
    m.entries m.nodupKeys m s
  have h' : (sessions.New.removeUnresolved m).lookup s =
      (m.lookup s).elim (m.lookup s)
        (fun w => some (w.filter fun i => decide (i.ResourceID ≠ ""))) := h
  rw [h']
  cases m.lookup s <;> rfl

theorem addResourceIDs_foldlM_mem (env : Env)
    (es : List (Sigma fun _ : session.Session => List sessions.Instance))
    (acc r : sessions.SessionMap)
    (h : es.foldlM
      (fun (m : sessions.SessionMap) e =>
        match sessions.New.resolve (env.describePages e.1) e.2 with
        | .error f => Except.error f
        | .ok instances => Except.ok (m.insert e.1 instances))
      acc = .ok r)
    (s : session.Session) (hs : s ∈ r) : s ∈ acc ∨ s ∈ es.keys := by
  induction es generalizing acc with
  | nil =>
    simp only [List.foldlM_nil, pure, Except.pure, Except.ok.injEq] at h
    exact Or.inl (h ▸ hs)
  | cons e es ih =>
    rw [List.foldlM_cons] at h
    cases hr : sessions.New.resolve (env.describePages e.1) e.2 with
    | error f => simp [hr, bind, Except.bind] at h
    | ok instances =>
      simp only [hr, bind, Except.bind] at h
      rcases ih _ h with h1 | h1
      · rcases (AList.mem_insert acc).mp h1 with h2 | h2
        · exact Or.inr (by simp [List.keys, h2])
        · exact Or.inl h2
      · exact Or.inr (by
          simp only [List.keys, List.map_cons, List.mem_cons]
          exact Or.inr h1)

/-- Resolving resource IDs creates no group. -/
theorem addResourceIDs_mem (env : Env) (m r : sessions.SessionMap)
    (h : sessions.New.addResourceIDs env m = .ok r) (s : session.Session) (hs : s ∈ r) :
    s ∈ m := by
  rcases addResourceIDs_foldlM_mem env m.entries m r h s hs with h1 | h1
  · exact h1
  · exact AList.mem_keys.mpr h1

theorem append_foldl_mem (inst : config.Instance) (s0 : session.Session) (ids : List String)
    (m : sessions.SessionMap) (s : session.Session)
    (hs : s ∈ ids.foldl
      (fun m identifier => sessions.New.append m s0 (sessions.New.record inst identifier)) m) :
    s = s0 ∨ s ∈ m := by
  induction ids generalizing m with
  | nil => exact Or.inr hs
  | cons identifier ids ih =>
    rw [List.foldl_cons] at hs
    rcases ih _ hs with h | h
    · exact Or.inl h
    · exact (AList.mem_insert m).mp h

theorem addInstance_groupsRegistered (env : Env) (trace : Bool) (st : sessions.New.State)
    (inst : config.Instance) (st' : sessions.New.State) (hst : GroupsRegistered st)
    (h : sessions.New.addInstance env trace st inst = .ok st') : GroupsRegistered st' := by
  unfold sessions.New.addInstance at h
  cases hl : st.sharedSessions.lookup (inst.Region ++ "/" ++ inst.AWSAccessKey) with
  | some s0 =>
    simp only [hl, Except.ok.injEq] at h
    subst h
    intro s hs
    rcases (AList.mem_insert st.sessions).mp hs with h1 | h1
    · exact ⟨_, h1 ▸ hl⟩
    · exact hst s h1
  | none =>
    simp only [hl] at h
    cases hc : sessions.buildCredentials env inst with
    | error err => simp [hc] at h
    | ok creds =>
      simp only [hc] at h
      split at h
      · simp at h
      · split at h
        · simp at h
        · next s1 _ =>
          simp only [Except.ok.injEq] at h
          subst h
          intro s hs
          rcases append_foldl_mem inst s1 _ st.sessions s hs with h1 | h1
          · subst h1; exact ⟨_, AList.lookup_insert _⟩
          · obtain ⟨k, hk⟩ := hst s h1
            have hne : k ≠ inst.Region ++ "/" ++ inst.AWSAccessKey := by
              intro e; rw [e, hl] at hk; simp at hk
            exact ⟨k, by rw [AList.lookup_insert_ne hne]; exact hk⟩

/-- After the first loop every group is keyed by a registered session. -/
theorem shareSessions_groupsRegistered (env : Env) (trace : Bool)
    (instances : List config.Instance) (st : sessions.New.State)
    (h : sessions.New.shareSessions env trace instances = .ok st) : GroupsRegistered st :=
  foldlM_preserves (sessions.New.addInstance env trace) GroupsRegistered
    (fun st b st' hst hf => addInstance_groupsRegistered env trace st b st' hst hf)
    instances _ st
    (fun s hs => absurd hs (AList.not_mem_empty s))
    h

/-- A successful `New` is the three later loops applied to a successful first
loop. -/
theorem New_ok (env : Env) (instances : List config.Instance) (trace : Bool)
    (pool : sessions.Sessions) (h : sessions.New env instances trace = .ok pool) :
    ∃ st resolved, sessions.New.shareSessions env trace instances = .ok st ∧
      sessions.New.addResourceIDs env st.sessions = .ok resolved ∧
      pool.sessions =
        sessions.New.removeEmpty st.sharedSessions (sessions.New.removeUnresolved resolved) := by
  unfold sessions.New at h
  cases h1 : sessions.New.shareSessions env trace instances with
  | error f => simp [h1] at h
  | ok st =>
    simp only [h1] at h
    cases h2 : sessions.New.addResourceIDs env st.sessions with
    | error f => simp [h2] at h
    | ok resolved =>
      simp only [h2, Except.ok.injEq] at h
      exact ⟨st, resolved, rfl, h2, by rw [← h]⟩

/-- C8: every instance of the pool returned by a successful `sessions.New`
has a non-empty `ResourceID`, for every list of configured instances and every
environment (session failures, discovery answers, description pages with
errors, nil fields or names that never match). -/
theorem New_resourceID_nonempty (env : Env) (instances : List config.Instance) (trace : Bool)
    (pool : sessions.Sessions) (h : sessions.New env instances trace = .ok pool) :
    ∀ s l, pool.AllSessions.lookup s = some l → ∀ i ∈ l, i.ResourceID ≠ "" := by
  obtain ⟨st, resolved, _, _, hp⟩ := New_ok env instances trace pool h
  intro s l hl i hi
  have h1 : pool.sessions.lookup s = some l := hl
  rw [hp] at h1
  have h2 := removeEmpty_lookup _ _ s l h1
  rw [removeUnresolved_lookup] at h2
  cases hr : resolved.lookup s with
  | none => rw [hr] at h2; simp at h2
  | some l0 =>
    rw [hr] at h2
    simp only [Option.map_some', Option.some.injEq] at h2
    rw [← h2] at hi
    have := (List.mem_filter.mp hi).2
    exact of_decide_eq_true this

/-- C8 at a concrete configuration: `db1` is resolved and kept, `db3` (empty
resource ID) and `nope` (never described) are dropped. -/
theorem New_resourceID_nonempty_witness :
    ∃ pool, sessions.New sample.env sample.threeInstances false = .ok pool ∧
      (pool.AllSessions.entries.map fun e => e.2.map fun i => (i.Instance, i.ResourceID)) =
        [[("db1", "db-R1")]] ∧
      ∀ s l, pool.AllSessions.lookup s = some l → ∀ i ∈ l, i.ResourceID ≠ "" :=
  ⟨_, rfl, rfl, New_resourceID_nonempty sample.env sample.threeInstances false _ rfl⟩

/-- C9: the pool returned by a successful `sessions.New` has no session group
with zero instances: every session key of the returned map maps to a non-empty
instance list. -/
theorem New_no_empty_group (env : Env) (instances : List config.Instance) (trace : Bool)
    (pool : sessions.Sessions) (h : sessions.New env instances trace = .ok pool) :
    (∀ s l, pool.AllSessions.lookup s = some l → l ≠ []) ∧
      ∀ e ∈ pool.AllSessions.entries, e.2 ≠ [] := by
  obtain ⟨st, resolved, h1, h2, hp⟩ := New_ok env instances trace pool h
  have key : ∀ s l, pool.AllSessions.lookup s = some l → l ≠ [] := by
    intro s l hl hnil
    subst hnil
    have hl' : pool.sessions.lookup s = some [] := hl
    rw [hp] at hl'
    have h3 := removeEmpty_lookup _ _ s [] hl'
    rw [removeUnresolved_lookup] at h3
    have hmem : s ∈ resolved := by
      rw [← AList.lookup_isSome]
      cases hr : resolved.lookup s with
      | none => rw [hr] at h3; simp at h3
      | some l0 => rfl
    obtain ⟨k, hk⟩ := shareSessions_groupsRegistered env trace instances st h1 s
      (addResourceIDs_mem env st.sessions resolved h2 s hmem)
    exact removeEmpty_nonempty st.sharedSessions _ s k hk hl'
  refine ⟨key, ?_⟩
  rintro ⟨s, l⟩ he
  exact key s l (AList.mem_lookup_iff.mpr he)

/-- C9 at a concrete configuration: the group of `eu-west-1`, whose only
instance is never described, is pruned; the group of `us-east-1` stays. -/
theorem New_no_empty_group_witness :
    ∃ pool, sessions.New sample.env sample.twoRegions false = .ok pool ∧
      (pool.AllSessions.entries.map fun e => (e.1.Region, e.2.map fun i => i.Instance)) =
        [("us-east-1", ["db2"])] ∧
      (∀ s l, pool.AllSessions.lookup s = some l → l ≠ []) ∧
      ∀ e ∈ pool.AllSessions.entries, e.2 ≠ [] :=
  ⟨_, rfl, rfl, New_no_empty_group sample.env sample.twoRegions false _ rfl⟩

/-! ## C7: grouping by region and access key -/

theorem NewSession_ptr (env : Env) (ptr : Nat) (cfg : aws.Config) (s : session.Session)
    (h : session.NewSession env ptr cfg = .ok s) : s.ptr = ptr := by
  unfold session.NewSession at h
  cases he : env.newSessionErr cfg with
  | some err => simp [he] at h
  | none =>
    simp only [he, Except.ok.injEq] at h
    rw [← h]

theorem append_lookup_ne (m : sessions.SessionMap) (s s' : session.Session)
    (x : sessions.Instance) (h : s' ≠ s) :
    (sessions.New.append m s x).lookup s' = m.lookup s' :=
  AList.lookup_insert_ne h

theorem append_foldl_lookup_ne (inst : config.Instance) (s s' : session.Session)
    (ids : List String) (m : sessions.SessionMap) (h : s' ≠ s) :
    (ids.foldl (fun m identifier => sessions.New.append m s (sessions.New.record inst identifier))
      m).lookup s' = m.lookup s' := by
  induction ids generalizing m with
  | nil => rfl
  | cons identifier ids ih => rw [List.foldl_cons, ih, append_lookup_ne _ _ _ _ h]

/-- One iteration of the first loop of `New`, on the maps themselves: the
configured instance ends registered under the string `Region + "/" +
AWSAccessKey`, only the group of that session changes, earlier registrations
stay, and when the string was registered before, the instance is appended to
the group of the session registered then, whatever its own region and key. -/
theorem addInstance_group (env : Env) (trace : Bool) (st : sessions.New.State)
    (inst : config.Instance) (st' : sessions.New.State)
    (h : sessions.New.addInstance env trace st inst = .ok st') :
    (∃ s, st'.sharedSessions.lookup (sessionKey inst) = some s ∧
      ∀ s', s' ≠ s → st'.sessions.lookup s' = st.sessions.lookup s') ∧
    (∀ k s0, st.sharedSessions.lookup k = some s0 → st'.sharedSessions.lookup k = some s0) ∧
    (∀ s0, st.sharedSessions.lookup (sessionKey inst) = some s0 →
      st'.sharedSessions = st.sharedSessions ∧
      st'.sessions.lookup s0 =
        some ((st.sessions.lookup s0).getD [] ++ [sessions.New.record inst inst.Instance])) := by
  unfold sessions.New.addInstance at h
  cases hl : st.sharedSessions.lookup (inst.Region ++ "/" ++ inst.AWSAccessKey) with
  | some s0 =>
    simp only [hl, Except.ok.injEq] at h
    subst h
    refine ⟨⟨s0, hl, fun s' hs' => append_lookup_ne _ _ _ _ hs'⟩, fun k s1 hk => hk, ?_⟩
    intro s1 hs1
    have hs1' : st.sharedSessions.lookup (inst.Region ++ "/" ++ inst.AWSAccessKey) = some s1 := hs1
    rw [hl] at hs1'
    simp only [Option.some.injEq] at hs1'
    subst hs1'
    exact ⟨rfl, AList.lookup_insert _⟩
  | none =>
    simp only [hl] at h
    cases hc : sessions.buildCredentials env inst with
    | error err => simp [hc] at h
    | ok creds =>
      simp only [hc] at h
      split at h
      · simp at h
      · split at h
        · simp at h
        · next s1 _ =>
          simp only [Except.ok.injEq] at h
          subst h
          refine ⟨⟨s1, AList.lookup_insert _, fun s' hs' =>
            append_foldl_lookup_ne inst s1 s' _ st.sessions hs'⟩, ?_, ?_⟩
          · intro k s0 hk
            have hne : k ≠ inst.Region ++ "/" ++ inst.AWSAccessKey := by
              intro e; rw [e, hl] at hk; simp at hk
            show AList.lookup k (AList.insert _ s1 st.sharedSessions) = _
            rw [AList.lookup_insert_ne hne]
            exact hk
          · intro s0 hs0
            have hs0' : st.sharedSessions.lookup (inst.Region ++ "/" ++ inst.AWSAccessKey) =
                some s0 := hs0
            rw [hl] at hs0'
            simp at hs0'

theorem addInstance_registry (env : Env) (trace : Bool) (st : sessions.New.State)
    (inst : config.Instance) (st' : sessions.New.State) (hst : Registry st)
    (h : sessions.New.addInstance env trace st inst = .ok st') : Registry st' := by
  unfold sessions.New.addInstance at h
  cases hl : st.sharedSessions.lookup (inst.Region ++ "/" ++ inst.AWSAccessKey) with
  | some s0 =>
    simp only [hl, Except.ok.injEq] at h
    subst h
    exact ⟨hst.allocated, hst.injective⟩
  | none =>
    simp only [hl] at h
    cases hc : sessions.buildCredentials env inst with
    | error err => simp [hc] at h
    | ok creds =>
      simp only [hc] at h
      split at h
      · simp at h
      · split at h
        · simp at h
        · next s1 hs1 =>
          have hptr := NewSession_ptr env _ _ s1 hs1
          simp only [Except.ok.injEq] at h
          subst h
          refine ⟨?_, ?_⟩
          · intro k s hk
            have hk' : AList.lookup k (AList.insert (inst.Region ++ "/" ++ inst.AWSAccessKey) s1
                st.sharedSessions) = some s := hk
            show s.ptr < st.allocated + 1
            by_cases e : k = inst.Region ++ "/" ++ inst.AWSAccessKey
            · subst e
              rw [AList.lookup_insert] at hk'
              simp only [Option.some.injEq] at hk'
              rw [← hk', hptr]
              exact Nat.lt_succ_self _
            · rw [AList.lookup_insert_ne e] at hk'
              exact Nat.lt_succ_of_lt (hst.allocated k s hk')
          · intro k1 k2 s hk1 hk2
            have hk1' : AList.lookup k1 (AList.insert (inst.Region ++ "/" ++ inst.AWSAccessKey)
                s1 st.sharedSessions) = some s := hk1
            have hk2' : AList.lookup k2 (AList.insert (inst.Region ++ "/" ++ inst.AWSAccessKey)
                s1 st.sharedSessions) = some s := hk2
            by_cases e1 : k1 = inst.Region ++ "/" ++ inst.AWSAccessKey
            · by_cases e2 : k2 = inst.Region ++ "/" ++ inst.AWSAccessKey
              · rw [e1, e2]
              · rw [e1, AList.lookup_insert] at hk1'
                rw [AList.lookup_insert_ne e2] at hk2'
                simp only [Option.some.injEq] at hk1'
                have := hst.allocated k2 s hk2'
                rw [← hk1', hptr] at this
                exact absurd this (Nat.lt_irrefl _)
            · by_cases e2 : k2 = inst.Region ++ "/" ++ inst.AWSAccessKey
              · rw [e2, AList.lookup_insert] at hk2'
                rw [AList.lookup_insert_ne e1] at hk1'
                simp only [Option.some.injEq] at hk2'
                have := hst.allocated k1 s hk1'
                rw [← hk2', hptr] at this
                exact absurd this (Nat.lt_irrefl _)
              · rw [AList.lookup_insert_ne e1] at hk1'
                rw [AList.lookup_insert_ne e2] at hk2'
                exact hst.injective k1 k2 s hk1' hk2'

/-- After the first loop of `New`, sessions registered under different strings
`Region + "/" + AWSAccessKey` are different sessions. -/
theorem shareSessions_registry (env : Env) (trace : Bool) (instances : List config.Instance)
    (st : sessions.New.State)
    (h : sessions.New.shareSessions env trace instances = .ok st) :
    ∀ k1 k2 s, st.sharedSessions.lookup k1 = some s → st.sharedSessions.lookup k2 = some s →
      k1 = k2 :=
  (foldlM_preserves (sessions.New.addInstance env trace) Registry
    (fun st b st' hst hf => addInstance_registry env trace st b st' hst hf)
    instances _ st
    ⟨fun k s hk => by rw [AList.lookup_empty] at hk; simp at hk,
      fun k1 k2 s hk => by rw [AList.lookup_empty] at hk; simp at hk⟩
    h).injective

/-- C7 on the failing input: two configured instances that differ in region
and in access key are put into one session group when the strings
`Region + "/" + AWSAccessKey` coincide. After the first loop of `New` the only
registered session is the one built for region `us-east-1` with key `x/K`, and
its group holds `db1` of region `us-east-1` and `db2` of region `us-east-1/x`;
when the provider describes both names, `New` returns that group. -/
theorem shareSessions_key_collision :
    (sample.configured "us-east-1" "db1" "x/K").Region ≠
      (sample.configured "us-east-1/x" "db2" "K").Region ∧
    (sample.configured "us-east-1" "db1" "x/K").AWSAccessKey ≠
      (sample.configured "us-east-1/x" "db2" "K").AWSAccessKey ∧
    (∃ st, sessions.New.shareSessions sample.env false sample.colliding = .ok st ∧
      (st.sharedSessions.entries.map fun e => (e.1, e.2)) =
        [("us-east-1/x/K", sample.collidingSession)] ∧
      (st.sessions.entries.map fun e => (e.1, e.2.map fun i => (i.Region, i.Instance))) =
        [(sample.collidingSession, [("us-east-1", "db1"), ("us-east-1/x", "db2")])]) ∧
    ∃ pool, sessions.New sample.env sample.colliding false = .ok pool ∧
      (pool.AllSessions.entries.map fun e => (e.1, e.2.map fun i => (i.Region, i.Instance))) =
        [(sample.collidingSession, [("us-east-1", "db1"), ("us-east-1/x", "db2")])] :=
  ⟨by decide, by decide, ⟨_, rfl, rfl, rfl⟩, ⟨_, rfl, rfl⟩⟩

/-! ## C10: `buildCredentials` -/

/-- C10 on the failing input: with a role ARN and no static keys the base
handle of the role-assumption handle is the static handle with empty key and
secret, not the default chain that the branch without role ARN falls back to
for the same empty keys. -/
theorem buildCredentials_role_without_keys :
    sessions.buildCredentials sample.env
        (sample.authenticated false "arn:aws:iam::123456789012:role/monitoring" "" "") =
      .ok (aws.Credentials.assumeRole (aws.Credentials.static "" "" "") "us-east-1"
        "arn:aws:iam::123456789012:role/monitoring") ∧
    (∀ v, aws.Credentials.static "" "" "" ≠ aws.Credentials.chain v) ∧
    sessions.buildCredentials sample.env (sample.authenticated false "" "" "") =
      .ok (aws.Credentials.chain true) :=
  ⟨rfl, fun _ h => aws.Credentials.noConfusion h, rfl⟩

/-- What `buildCredentials` computes, branch by branch, first match wins.
With IRSA requested: the default-chain handle, whatever the role ARN and keys.
Otherwise with a non-empty role ARN: the role-assumption handle for that role
over the static handle holding the configured access key and secret key, empty
or not. Otherwise with a non-empty access key or secret key: the static handle
holding these two values. Otherwise: the default-chain handle with verbose
chain errors. The branches that build an SDK session return its error when
that fails. -/
theorem buildCredentials_steps (env : Env) (inst : config.Instance) :
    (inst.IRSAEnabled = true →
      sessions.buildCredentials env inst =
        match env.newSessionErr
            { Credentials := none, Region := inst.Region,
              CredentialsChainVerboseErrors := false, Trace := false } with
        | some err => .error err
        | none => .ok (aws.Credentials.chain false)) ∧
    (inst.IRSAEnabled = false → inst.AWSRoleArn ≠ "" →
      sessions.buildCredentials env inst =
        match env.newSessionErr
            { Credentials := some (aws.Credentials.static inst.AWSAccessKey inst.AWSSecretKey ""),
              Region := inst.Region, CredentialsChainVerboseErrors := false, Trace := false } with
        | some err => .error err
        | none =>
          .ok (aws.Credentials.assumeRole
            (aws.Credentials.static inst.AWSAccessKey inst.AWSSecretKey "") inst.Region
            inst.AWSRoleArn)) ∧
    (inst.IRSAEnabled = false → inst.AWSRoleArn = "" →
      inst.AWSAccessKey ≠ "" ∨ inst.AWSSecretKey ≠ "" →
      sessions.buildCredentials env inst =
        .ok (aws.Credentials.static inst.AWSAccessKey inst.AWSSecretKey "")) ∧
    (inst.IRSAEnabled = false → inst.AWSRoleArn = "" →
      inst.AWSAccessKey = "" → inst.AWSSecretKey = "" →
      sessions.buildCredentials env inst =
        match env.newSessionErr
            { Credentials := none, Region := inst.Region,
              CredentialsChainVerboseErrors := true, Trace := false } with
        | some err => .error err
        | none => .ok (aws.Credentials.chain true)) := by
  refine ⟨?_, ?_, ?_, ?_⟩
  · intro h1
    unfold sessions.buildCredentials session.NewSession
    rw [if_pos h1]
    cases env.newSessionErr _ <;> rfl
  · intro h1 h2
    unfold sessions.buildCredentials session.NewSession
    rw [if_neg (by simp [h1]), if_pos h2]
    cases env.newSessionErr _ <;> rfl
  · intro h1 h2 h3
    unfold sessions.buildCredentials
    rw [if_neg (by simp [h1]), if_neg (by simp [h2]), if_pos h3]
  · intro h1 h2 h3 h4
    unfold sessions.buildCredentials session.NewSession
    rw [if_neg (by simp [h1]), if_neg (by simp [h2]), if_neg (by simp [h3, h4])]
    cases env.newSessionErr _ <;> rfl

/-- The four branches of `buildCredentials` at concrete configurations. -/
theorem buildCredentials_steps_witness :
    sessions.buildCredentials sample.env (sample.authenticated true "arn:role" "AKIA" "secret") =
      .ok (aws.Credentials.chain false) ∧
    sessions.buildCredentials sample.env (sample.authenticated false "arn:role" "AKIA" "secret") =
      .ok (aws.Credentials.assumeRole (aws.Credentials.static "AKIA" "secret" "") "us-east-1"
        "arn:role") ∧
    sessions.buildCredentials sample.env (sample.authenticated false "" "AKIA" "secret") =
      .ok (aws.Credentials.static "AKIA" "secret" "") ∧
    sessions.buildCredentials sample.env (sample.authenticated false "" "" "") =
      .ok (aws.Credentials.chain true) :=
  ⟨(buildCredentials_steps sample.env (sample.authenticated true "arn:role" "AKIA" "secret")).1
      rfl,
    (buildCredentials_steps sample.env
      (sample.authenticated false "arn:role" "AKIA" "secret")).2.1 rfl (by decide),
    (buildCredentials_steps sample.env
      (sample.authenticated false "" "AKIA" "secret")).2.2.1 rfl rfl (Or.inl (by decide)),
    (buildCredentials_steps sample.env (sample.authenticated false "" "" "")).2.2.2 rfl rfl
      rfl rfl⟩

/-! ## C13: entries without data points -/

/-- A loop that appends the result of a fallible call per element fails when
some call does, in a way one of the calls fails. -/
theorem foldlM_append_fails {A B : Type} (g : A → Except Failure B) (Q : Failure → Prop)
    (l : List A) (init : List B) (hall : ∀ a ∈ l, ∀ e, g a = .error e → Q e)
    (hex : ∃ a ∈ l, ∃ e, g a = .error e) :
    ∃ e, l.foldlM (fun res a => do let b ← g a; pure (res ++ [b])) init = .error e ∧ Q e := by
  induction l generalizing init with
  | nil => obtain ⟨a, ha, _⟩ := hex; exact absurd ha (List.not_mem_nil _)
  | cons a l ih =>
    rw [List.foldlM_cons]
    cases hg : g a with
    | error f =>
      refine ⟨f, ?_, hall a (List.mem_cons_self _ _) f hg⟩
      simp only [bind, Except.bind]
    | ok b =>
      have hall' : ∀ x ∈ l, ∀ e, g x = .error e → Q e :=
        fun x hx => hall x (List.mem_cons_of_mem _ hx)
      have hex' : ∃ x ∈ l, ∃ e, g x = .error e := by
        obtain ⟨x, hx, e, hxe⟩ := hex
        rcases List.mem_cons.mp hx with h1 | h1
        · rw [h1, hg] at hxe; exact absurd hxe (by simp)
        · exact ⟨x, h1, e, hxe⟩
      obtain ⟨e, he, hq⟩ := ih (init ++ [b]) hall' hex'
      refine ⟨e, ?_, hq⟩
      simp only [bind, Except.bind, pure, Except.pure] at he ⊢
      exact he

/-- C13: `makeMetric` fails with the index-out-of-range panic for every entry
whose `DataPoints` is empty, and `makePrometheusMetrics` then returns no result
for any payload containing such an entry, whatever the other entries are: it
panics, and with the index-out-of-range panic when `NewDesc` accepts the
descriptors of the entries. -/
theorem makeMetric_empty_dataPoints (checks : prometheus.Checks)
    (float64OfInt : Int → prometheus.Float64) :
    (∀ (m : performance_insights.metric) (constLabels : GoMap String), m.DataPoints = [] →
      performance_insights.makeMetric checks float64OfInt m constLabels =
        .error (.panic "index out of range [0] with length 0")) ∧
    (∀ (p : performance_insights.performanceInsightsMetrics)
        (instanceIdentifier region : String) (labels : GoMap String),
      (∃ mt ∈ p.MetricList, mt.DataPoints = []) →
      ∃ msg, p.makePrometheusMetrics checks float64OfInt instanceIdentifier region labels =
        .error (.panic msg)) ∧
    (∀ (p : performance_insights.performanceInsightsMetrics)
        (instanceIdentifier region : String) (labels : GoMap String),
      (∃ mt ∈ p.MetricList, mt.DataPoints = []) →
      (∀ mt ∈ p.MetricList,
        (performance_insights.makeMetric.desc checks mt
          (performance_insights.performanceInsightsMetrics.makePrometheusMetrics.constLabels
            instanceIdentifier region labels)).err = none) →
      p.makePrometheusMetrics checks float64OfInt instanceIdentifier region labels =
        .error (.panic "index out of range [0] with length 0")) := by
  refine ⟨fun m constLabels hm => makeMetric_nil checks float64OfInt m constLabels hm, ?_, ?_⟩
  · intro p instanceIdentifier region labels hex
    obtain ⟨mt, hmt, hp⟩ := hex
    obtain ⟨e, he, msg, hmsg⟩ := foldlM_append_fails
      (fun mt => performance_insights.makeMetric checks float64OfInt mt
        (performance_insights.performanceInsightsMetrics.makePrometheusMetrics.constLabels
          instanceIdentifier region labels))
      (fun e => ∃ msg, e = .panic msg) p.MetricList []
      (fun a _ e hae => (makeMetric_error checks float64OfInt a _ e hae).1)
      ⟨mt, hmt, _, makeMetric_nil checks float64OfInt mt _ hp⟩
    exact ⟨msg, hmsg ▸ he⟩
  · intro p instanceIdentifier region labels hex hdesc
    obtain ⟨mt, hmt, hp⟩ := hex
    obtain ⟨e, he, hq⟩ := foldlM_append_fails
      (fun mt => performance_insights.makeMetric checks float64OfInt mt
        (performance_insights.performanceInsightsMetrics.makePrometheusMetrics.constLabels
          instanceIdentifier region labels))
      (fun e => e = .panic "index out of range [0] with length 0") p.MetricList []
      (fun a ha e hae => (makeMetric_error checks float64OfInt a _ e hae).2 (hdesc a ha))
      ⟨mt, hmt, _, makeMetric_nil checks float64OfInt mt _ hp⟩
    exact hq ▸ he

/-- C13 at a concrete payload: an entry without data points between two
well-formed entries makes the whole call fail. -/
theorem makeMetric_empty_dataPoints_witness :
    sample.emptyEntry.DataPoints = [] ∧
    performance_insights.makeMetric sample.checks sample.float64OfInt sample.emptyEntry ∅ =
      .error (.panic "index out of range [0] with length 0") ∧
    (∃ mt ∈ sample.mixedPayload.MetricList, mt.DataPoints = []) ∧
    (∃ msg, sample.mixedPayload.makePrometheusMetrics sample.checks sample.float64OfInt
      "db-ABC" "us-east-1" ∅ = .error (.panic msg)) ∧
    sample.mixedPayload.makePrometheusMetrics sample.checks sample.float64OfInt "db-ABC"
        "us-east-1" ∅ =
      .error (.panic "index out of range [0] with length 0") :=
  have hex : ∃ mt ∈ sample.mixedPayload.MetricList, mt.DataPoints = [] :=
    ⟨sample.emptyEntry, List.mem_cons_of_mem _ (List.mem_cons_self _ _), rfl⟩
  ⟨rfl,
    (makeMetric_empty_dataPoints sample.checks sample.float64OfInt).1 sample.emptyEntry ∅ rfl,
    hex,
    (makeMetric_empty_dataPoints sample.checks sample.float64OfInt).2.1 sample.mixedPayload
      "db-ABC" "us-east-1" ∅ hex,
    rfl⟩

/-! ## C11: request tracing on CI -/

/-- A failing loop fails the way one of its iterations does. -/
theorem foldlM_error {σ β ε : Type} (f : σ → β → Except ε σ) (Q : ε → Prop)
    (hstep : ∀ st b e, f st b = .error e → Q e) (l : List β) (st : σ) (e : ε)
    (h : l.foldlM f st = .error e) : Q e := by
  induction l generalizing st with
  | nil => simp [pure, Except.pure] at h
  | cons b l ih =>
    rw [List.foldlM_cons] at h
    cases hf : f st b with
    | error e' =>
      simp only [hf, bind, Except.bind, Except.error.injEq] at h
      exact h ▸ hstep st b e' hf
    | ok st1 =>
      simp only [hf, bind, Except.bind] at h
      exact ih st1 h

theorem matchDBInstance_error (dbInstance : rds.DBInstance) (instances : List sessions.Instance)
    (f : Failure) (h : sessions.New.matchDBInstance dbInstance instances = .error f) :
    f = .panic "nil pointer dereference" := by
  induction instances generalizing f with
  | nil => simp [sessions.New.matchDBInstance] at h
  | cons inst rest ih =>
    unfold sessions.New.matchDBInstance at h
    split at h
    · simp only [Except.error.injEq] at h; exact h.symm
    · split at h
      · split at h
        · split at h
          · next f' hf' =>
            simp only [Except.error.injEq] at h
            exact h ▸ ih f' hf'
          · simp at h
        · simp only [Except.error.injEq] at h; exact h.symm
      · split at h
        · next f' hf' =>
          simp only [Except.error.injEq] at h
          exact h ▸ ih f' hf'
        · simp at h

theorem resolve_error (pages : rds.Pages) (instances : List sessions.Instance) (f : Failure)
    (h : sessions.New.resolve pages instances = .error f) :
    f = .panic "nil pointer dereference" := by
  have hpage : ∀ (page : List rds.DBInstance) (instances : List sessions.Instance) (f : Failure),
      sessions.New.matchPage page instances = .error f → f = .panic "nil pointer dereference" :=
    fun page instances f hf =>
      foldlM_error (fun insts dbInstance => sessions.New.matchDBInstance dbInstance insts)
        (fun f => f = .panic "nil pointer dereference")
        (fun st b e he => matchDBInstance_error b st e he) page instances f hf
  induction pages generalizing instances with
  | failed err => simp [sessions.New.resolve] at h
  | last page => exact hpage page instances f h
  | more page rest ih =>
    unfold sessions.New.resolve at h
    split at h
    · next f' hf' =>
      simp only [Except.error.injEq] at h
      exact h ▸ hpage page instances f' hf'
    · next instances' _ => exact ih instances' h

/-- The resource-ID loop fails only by dereferencing a nil field. -/
theorem addResourceIDs_error (env : Env) (m : sessions.SessionMap) (f : Failure)
    (h : sessions.New.addResourceIDs env m = .error f) : f = .panic "nil pointer dereference" := by
  refine foldlM_error _ (fun f => f = .panic "nil pointer dereference") ?_ m.entries m f h
  intro st e f' hf'
  split at hf'
  · next f'' hf'' =>
    simp only [Except.error.injEq] at hf'
    exact hf' ▸ resolve_error _ _ f'' hf''
  · simp at hf'

/-- Without tracing, or without `CI`, an iteration of the first loop fails
only with a returned error. -/
theorem addInstance_error (env : Env) (trace : Bool) (st : sessions.New.State)
    (inst : config.Instance) (f : Failure) (hoff : trace = false ∨ env.CI = false)
    (h : sessions.New.addInstance env trace st inst = .error f) : ∃ err, f = .error err := by
  unfold sessions.New.addInstance at h
  split at h
  · simp at h
  · split at h
    · next err _ => simp only [Except.error.injEq] at h; exact ⟨err, h.symm⟩
    · split at h
      · next hboth => rcases hoff with h1 | h1 <;> simp [h1] at hboth
      · split at h
        · next err _ => simp only [Except.error.injEq] at h; exact ⟨err, h.symm⟩
        · simp at h

/-- C11 as stated fails: with tracing enabled and `CI` set, `New` returns the
empty pool for the empty list of configured instances; and when the first
instance's credentials cannot be built it returns that error and does not
panic. -/
theorem New_trace_counterexample :
    sample.envCI.CI = true ∧
    sessions.New sample.envCI [] true = .ok { sessions := ∅ } ∧
    sample.envCIFailing.CI = true ∧
    sessions.New sample.envCIFailing sample.threeInstances true = .error (.error "no session") :=
  ⟨rfl, rfl, rfl, rfl⟩

/-- C11, amended: with tracing enabled and `CI` set, `New` never returns a pool
for a non-empty list of configured instances: it panics when it prepares the
session of the first instance, unless building that instance's credentials
fails first, in which case it returns that error; for the empty list it
returns the empty pool. With tracing disabled, or with `CI` unset, `New` never
ends in the panic of the CI check. -/
theorem New_trace_on_CI (env : Env) (instances : List config.Instance) (trace : Bool) :
    (trace = true → env.CI = true → ∀ inst rest, instances = inst :: rest →
      sessions.New env instances trace =
        match sessions.buildCredentials env inst with
        | .error err => .error (.error err)
        | .ok _ =>
          .error (.panic
            "Do not enable AWS request tracing on CI - output will contain credentials.")) ∧
    (instances = [] → sessions.New env instances trace = .ok { sessions := ∅ }) ∧
    (trace = false ∨ env.CI = false →
      sessions.New env instances trace ≠
        .error (.panic
          "Do not enable AWS request tracing on CI - output will contain credentials.")) := by
  refine ⟨?_, ?_, ?_⟩
  · intro ht hci inst rest hl
    subst hl
    unfold sessions.New sessions.New.shareSessions
    rw [List.foldlM_cons]
    unfold sessions.New.addInstance
    simp only [AList.lookup_empty]
    cases hc : sessions.buildCredentials env inst with
    | error err => simp [bind, Except.bind]
    | ok creds => simp [bind, Except.bind, ht, hci]
  · intro hl
    subst hl
    rfl
  · intro hoff hcontra
    unfold sessions.New at hcontra
    split at hcontra
    · next f hf =>
      simp only [Except.error.injEq] at hcontra
      obtain ⟨err, herr⟩ := foldlM_error (sessions.New.addInstance env trace)
        (fun f => ∃ err, f = .error err)
        (fun st b e he => addInstance_error env trace st b e hoff he) instances _ f hf
      rw [herr] at hcontra
      exact Failure.noConfusion hcontra
    · split at hcontra
      · next f hf =>
        simp only [Except.error.injEq] at hcontra
        have := addResourceIDs_error env _ f hf
        rw [this] at hcontra
        simp only [Failure.panic.injEq] at hcontra
        exact absurd hcontra (by decide)
      · simp at hcontra

/-- C11 at concrete configurations: on CI with tracing the three configured
instances lead to the panic; without `CI` the same call returns a pool. -/
theorem New_trace_on_CI_witness :
    sessions.New sample.envCI sample.threeInstances true =
      .error (.panic
        "Do not enable AWS request tracing on CI - output will contain credentials.") ∧
    sessions.New sample.envCI [] true = .ok { sessions := ∅ } ∧
    sessions.New sample.env sample.threeInstances true ≠
      .error (.panic
        "Do not enable AWS request tracing on CI - output will contain credentials.") :=
  ⟨(New_trace_on_CI sample.envCI sample.threeInstances true).1 rfl rfl _ _ rfl,
    (New_trace_on_CI sample.envCI [] true).2.1 rfl,
    (New_trace_on_CI sample.env sample.threeInstances true).2.2 (Or.inr rfl)⟩

/-! ## C12: `Update` and the collector's lock -/

/-- C12 on a failing schedule: `Update` performs no `Lock` and no `Unlock`
(while `setMetrics` starts with `Lock` and `Collect` with `RLock`), so none of
its steps ever waits for a reader; when `Collect` runs between the third and
the fourth assignment of `Update`, it reads the collector, under its shared
lock, with `cancelFunc`, `logger` and `sessions` replaced and `metrics` not. -/
theorem Update_without_lock :
    enhanced.Action.Lock ∉ enhanced.Update.steps ∧
    enhanced.Action.Unlock ∉ enhanced.Update.steps ∧
    enhanced.setMetrics.steps.head? = some enhanced.Action.Lock ∧
    enhanced.Collect.steps.head? = some enhanced.Action.RLock ∧
    (∀ (o : enhanced.Owner) (a : enhanced.Action), a ∈ enhanced.Update.steps →
      (o.step a).isSome = true) ∧
    ∃ o, enhanced.interleave sample.schedule enhanced.Update.steps enhanced.Collect.steps
        enhanced.Owner.initial [] = some [o] ∧
      o.readers = 1 ∧ o.writer = false ∧
      o.cancelFunc = enhanced.Ref.fresh ∧ o.logger = enhanced.Ref.fresh ∧
      o.sessions = enhanced.Ref.fresh ∧ o.metrics = enhanced.Ref.old ∧
      o.halfUpdated := by
  refine ⟨by decide, by decide, rfl, rfl, ?_, ?_⟩
  · intro o a ha
    simp only [enhanced.Update.steps, List.mem_cons, List.mem_singleton, List.not_mem_nil,
      or_false] at ha
    rcases ha with h | h | h | h | h | h <;> subst h <;> rfl
  · refine ⟨_, rfl, rfl, rfl, rfl, rfl, rfl, rfl, ?_⟩
    unfold enhanced.Owner.halfUpdated
    decide

end RdsExporter
